import Mathlib

/-!
A shallow embedding of the `diorcety/circus` repository sources
(`circus/config.py`, `circus/consumer.py`, `circus/share.py`) together
with theorems about the configuration reader, the pub/sub consumer and
the Windows file-sharing shim.

Conventions of the embedding:
* Python values flowing through the configuration snapshot are modelled
  by the inductive type `PyVal`; Python `dict`s are insertion-ordered
  association lists (`Dict`), exactly as CPython dictionaries behave.
* Python machine-level `int` is unbounded, so it is `Int`; `float` values
  appearing here are decimal literals from configuration files, modelled
  exactly by `Rat`.
* Fallible Python code (conversions that can raise `ValueError`,
  dictionary lookups that can raise `KeyError`, ...) is modelled with
  `Option`: `none` means the original code raises.
* File-system access (`os.path.exists`, reading the file, the include
  mechanism of `read_config`) is outside the embedding: `get_config`
  takes the already-parsed INI content (`Ini`) and the parent process
  environment (`os.environ`) as explicit inputs.
-/

namespace Circus

/-- A Python value as it occurs in the configuration snapshot. -/
inductive PyVal where
  | none
  | bool (b : Bool)
  | int (i : Int)
  | float (q : Rat)
  | str (s : String)
  | list (xs : List PyVal)
  | dict (entries : List (String × PyVal))

/-- An insertion-ordered Python dictionary with string keys. -/
abbrev Dict := List (String × PyVal)

/-- Python `d[k]`, returning `none` where CPython raises `KeyError`. -/
def dlookup : Dict → String → Option PyVal
  | [], _ => Option.none
  | (k', v) :: rest, k => if k' = k then some v else dlookup rest k

/-- Python `d[k] = v`: replace the value in place if the key exists,
otherwise append the new pair (CPython insertion order). -/
def dset : Dict → String → PyVal → Dict
  | [], k, v => [(k, v)]
  | (k', v') :: rest, k, v =>
    if k' = k then (k, v) :: rest else (k', v') :: dset rest k v

/-- A string-to-string environment dictionary (`os.environ`, `[env]`). -/
abbrev StrEnv := List (String × String)

def envLookup : StrEnv → String → Option String
  | [], _ => Option.none
  | (k', v) :: rest, k => if k' = k then some v else envLookup rest k

def envSet : StrEnv → String → String → StrEnv
  | [], k, v => [(k, v)]
  | (k', v') :: rest, k, v =>
    if k' = k then (k, v) :: rest else (k', v') :: envSet rest k v

/-- Python `base.update(upd)` on string dictionaries. -/
def envUpdate (base upd : StrEnv) : StrEnv :=
  upd.foldl (fun acc p => envSet acc p.1 p.2) base

/-- View a string environment as a Python dict of string values. -/
def strDict (e : StrEnv) : Dict := e.map (fun p => (p.1, PyVal.str p.2))

/-- Extract the string entries of a `PyVal` expected to be a dict of
strings (a watcher's `env`); non-dict input gives the empty environment
(unreachable in the modelled control flow). -/
def envStringsOf : Option PyVal → StrEnv
  | some (PyVal.dict d) =>
    d.filterMap (fun p => match p.2 with
      | PyVal.str s => some (p.1, s)
      | _ => Option.none)
  | _ => []

/-! ### Character-list string helpers

The embedded code manipulates Python strings through their character
lists (`String.data`), which keeps the reasoning in `List` land. -/

/-- Python `s.startswith(p)`, on character lists. -/
def listLeads : List Char → List Char → Bool
  | [], _ => true
  | _ :: _, [] => false
  | p :: ps, c :: cs => p = c && listLeads ps cs

/-- Python `s.startswith(p)`. -/
def pyStartswith (s p : String) : Bool := listLeads p.data s.data

/-- Python `s[n:]` (character slicing). -/
def pyDrop (s : String) (n : Nat) : String := ⟨s.data.drop n⟩

/-- Python whitespace test used by `str.strip()`. -/
def pySpace (c : Char) : Bool :=
  c = ' ' || c = '\t' || c = '\n' || c = '\r' || c = '\x0b' || c = '\x0c'

def stripList (l : List Char) : List Char :=
  ((l.dropWhile pySpace).reverse.dropWhile pySpace).reverse

/-- Python `s.strip()`. -/
def pyStrip (s : String) : String := ⟨stripList s.data⟩

/-- Python `s.lower()` (ASCII case folding suffices here). -/
def pyLower (s : String) : String := ⟨s.data.map Char.toLower⟩

/-- Python `s.upper()`. -/
def pyUpper (s : String) : String := ⟨s.data.map Char.toUpper⟩

/-- Split at the first occurrence of a character: Python
`s.split(c, 1)` when it yields two parts, `none` when the character is
absent (so that unpacking into two names raises `ValueError`). -/
def splitOnceList (c : Char) (l : List Char) : Option (List Char × List Char) :=
  let before := l.takeWhile (fun a => a ≠ c)
  match l.drop before.length with
  | [] => Option.none
  | _ :: after => some (before, after)

/-- Python `s.split(sep, 1)` returning both parts, or `none` if `sep`
does not occur. -/
def pySplitOnce (s : String) (c : Char) : Option (String × String) :=
  (splitOnceList c s.data).map (fun p => (⟨p.1⟩, ⟨p.2⟩))

theorem splitOnceList_snd_lt (c : Char) (l before after : List Char)
    (h : splitOnceList c l = some (before, after)) : after.length < l.length := by
  simp only [splitOnceList] at h
  rcases hd : l.drop (l.takeWhile (fun a => a ≠ c)).length with _ | ⟨x, xs⟩ <;>
    rw [hd] at h
  · cases h
  · have hlen := congrArg List.length hd
    simp only [List.length_drop, List.length_cons] at hlen
    cases h
    omega

/-- Split at every occurrence of a character (Python `s.split(c)`). -/
def splitAllList (c : Char) : List Char → List (List Char)
  | l =>
    match h : splitOnceList c l with
    | Option.none => [l]
    | some (before, after) => before :: splitAllList c after
termination_by l => l.length
decreasing_by
  exact splitOnceList_snd_lt c l before after h

/-- Python `s.split(c)` on strings. -/
def pySplitAll (s : String) (c : Char) : List String :=
  (splitAllList c s.data).map (fun l => ⟨l⟩)

/-- Occurrence test for a non-empty separator pattern (helper for
Python `s.split(sep)` with a multi-character separator). -/
def findSub (sep : List Char) : List Char → Option (List Char × List Char)
  | [] => Option.none
  | c :: rest =>
    if listLeads sep (c :: rest) then some ([], (c :: rest).drop sep.length)
    else match findSub sep rest with
      | Option.none => Option.none
      | some (pre, post) => some (c :: pre, post)

theorem listLeads_length : ∀ (p l : List Char), listLeads p l = true → p.length ≤ l.length := by
  intro p
  induction p with
  | nil => intro l _; simp
  | cons a ps ih =>
    intro l h
    cases l with
    | nil => simp [listLeads] at h
    | cons c cs =>
      simp only [listLeads, Bool.and_eq_true] at h
      have := ih cs h.2
      simp only [List.length_cons]
      omega

theorem findSub_post_le (sep : List Char) :
    ∀ (m pre post : List Char), findSub sep m = some (pre, post) →
      post.length + sep.length ≤ m.length + (if sep.length = 0 then 1 else 0) := by
  intro m
  induction m with
  | nil => intro pre post hh; simp [findSub] at hh
  | cons c rest ih =>
    intro pre post hh
    simp only [findSub] at hh
    split at hh
    · rename_i hlead
      cases hh
      have hl := listLeads_length sep (c :: rest) hlead
      simp only [List.length_cons] at hl
      simp only [List.length_drop, List.length_cons]
      split <;> omega
    · cases hfind : findSub sep rest with
      | none => rw [hfind] at hh; cases hh
      | some pr =>
        rw [hfind] at hh
        cases hh
        have := ih pr.1 pr.2 hfind
        simp only [List.length_cons]
        omega

/-- Python `s.split(sep)` for a non-empty string separator. -/
def splitSubList (sep : List Char) (l : List Char) : List (List Char) :=
  match h : findSub sep l with
  | Option.none => [l]
  | some (pre, post) =>
    if hsep : sep.length = 0 then [l]
    else pre :: splitSubList sep post
termination_by l.length
decreasing_by
  have hle := findSub_post_le sep l pre post h
  rw [if_neg hsep] at hle
  have hpos : 0 < sep.length := Nat.pos_of_ne_zero hsep
  omega

/-- Python `s.split(sep)` for a string separator. -/
def pySplitSub (s sep : String) : List String :=
  (splitSubList sep.data s.data).map (fun l => ⟨l⟩)

/-! ### Python numeric conversions

Models of the CPython builtins used by `config.py`: `int(s)`,
`int(s, 8)` and `float(s)`. `none` models a raised `ValueError`.
(CPython also accepts underscores in numerals and exponent notation in
floats; configuration files exercised here use plain decimal forms.) -/

def digitVal (c : Char) : Nat := c.toNat - 48

/-- Value of a non-empty all-decimal-digit character list. -/
def decDigits? (l : List Char) : Option Nat :=
  if l.isEmpty then Option.none
  else l.foldlM
    (fun acc c => if c.isDigit then some (acc * 10 + digitVal c) else Option.none) 0

/-- Value of a non-empty all-octal-digit character list. -/
def octDigits? (l : List Char) : Option Nat :=
  if l.isEmpty then Option.none
  else l.foldlM
    (fun acc c =>
      if c.isDigit && digitVal c ≤ 7 then some (acc * 8 + digitVal c) else Option.none) 0

/-- Python `int(s)`. -/
def py_int (s : String) : Option Int :=
  match stripList s.data with
  | '-' :: rest => (decDigits? rest).map (fun n => -(n : Int))
  | '+' :: rest => (decDigits? rest).map (fun n => (n : Int))
  | rest => (decDigits? rest).map (fun n => (n : Int))

/-- Python `int(s, 8)` (the `umask` conversion). -/
def py_octal (s : String) : Option Int :=
  match stripList s.data with
  | '-' :: rest => (octDigits? rest).map (fun n => -(n : Int))
  | '+' :: rest => (octDigits? rest).map (fun n => (n : Int))
  | rest => (octDigits? rest).map (fun n => (n : Int))

def digitsVal (l : List Char) : Nat :=
  l.foldl (fun acc c => acc * 10 + digitVal c) 0

/-- Unsigned decimal float body: `digits`, `digits.`, `.digits` or
`digits.digits`. -/
def floatCore (l : List Char) : Option Rat :=
  match splitOnceList '.' l with
  | Option.none => (decDigits? l).map (fun n => (n : Rat))
  | some (ip, fp) =>
    if ip.isEmpty && fp.isEmpty then Option.none
    else if ip.all Char.isDigit && fp.all Char.isDigit then
      some ((digitsVal ip : Rat) + (digitsVal fp : Rat) / ((10 : Rat) ^ fp.length))
    else Option.none

/-- Python `float(s)` on plain decimal notation. -/
def py_float (s : String) : Option Rat :=
  match stripList s.data with
  | '-' :: rest => (floatCore rest).map (fun q => -q)
  | '+' :: rest => floatCore rest
  | rest => floatCore rest

/-! ### Collaborators of `config.py` that live outside `src/`

`circus/util.py` and `circus/py3compat.py` are part of this repository
but are not among the provided sources; the definitions below model
the helpers they export, from what the specification says about them. -/

/-- Modelled from the spec: `circus.util.to_bool` (absent from `src/`)
parses the boolean configuration options the spec writes as
`statsd=true`, `copy_path=true`, ...; the usual INI truthy and falsy
spellings are accepted, anything else raises `ValueError` (`none`). -/
def to_bool (s : String) : Option Bool :=
  let t : String := ⟨stripList (pyLower s).data⟩
  if t = "yes" || t = "true" || t = "on" || t = "1" then some true
  else if t = "no" || t = "false" || t = "off" || t = "0" then some false
  else Option.none

/-- Modelled from the spec: `circus.util.replace_gnu_args` (absent from
`src/`). Per the spec, every occurrence of `$(NAME)` in a string is
substituted with the value of `NAME` from the environment, a missing
variable substituting the empty string. An unterminated `$(` leaves the
remainder of the string unchanged. The scan is fuelled (structural
recursion) so that it evaluates inside the kernel; every step consumes
at least one character, so `l.length` fuel always suffices. -/
def rgaFuel (env : StrEnv) : Nat → List Char → List Char
  | _, [] => []
  | 0, l => l
  | fuel + 1, c :: rest =>
    if c = '$' then
      match rest with
      | '(' :: r2 =>
        match r2.drop (r2.takeWhile (fun a => a ≠ ')')).length with
        | ')' :: r3 =>
          ((envLookup env ⟨r2.takeWhile (fun a => a ≠ ')')⟩).getD "").data ++
            rgaFuel env fuel r3
        | _ => c :: rest
      | r => c :: rgaFuel env fuel r
    else c :: rgaFuel env fuel rest

/-- The `$(NAME)` substitution scan over a character list. -/
def rgaList (env : StrEnv) (l : List Char) : List Char := rgaFuel env l.length l

/-- Modelled from the spec: `circus.util.replace_gnu_args` on strings. -/
def replace_gnu_args (s : String) (env : StrEnv) : String := ⟨rgaList env s.data⟩

/-- Modelled from the spec: `circus.util.to_signum` (absent from
`src/`) turns a `stop_signal` option into a signal number: a numeric
string directly, otherwise a signal name. -/
def to_signum (s : String) : Option Int :=
  match py_int s with
  | some n => some n
  | Option.none =>
    envLookup
      [("TERM", "15"), ("HUP", "1"), ("INT", "2"), ("QUIT", "3"),
       ("KILL", "9"), ("USR1", "10"), ("USR2", "12")]
      (pyUpper (pyStrip s)) |>.bind py_int

/-- Modelled from the spec: `circus.py3compat.sort_by_field` (absent
from `src/`). Per the spec watchers iterate "by `priority` descending,
then insertion order", i.e. a stable descending sort on the `priority`
field. Implemented as a stable insertion sort. -/
def insertDesc (key : α → Int) (x : α) : List α → List α
  | [] => [x]
  | y :: ys => if key y ≤ key x then x :: y :: ys else y :: insertDesc key x ys

/-- Modelled from the spec: stable sort, `priority` descending. -/
def sort_by_field (key : α → Int) (l : List α) : List α :=
  l.foldr (insertDesc key) []

/-- The `priority` sort key of a snapshot dictionary (watchers always
carry an integer `priority`; a missing or non-integer field sorts as 0). -/
def priorityOf (d : Dict) : Int :=
  match dlookup d "priority" with
  | some (PyVal.int n) => n
  | _ => 0

/-- Model of the Python standard library `fnmatch.fnmatch` as used on
watcher-name patterns: `*` and `?` wildcards, other characters literal
(`os.path.normcase` is the identity on POSIX; `[...]` sequence classes
are not exercised by the embedded code paths). -/
def fnmatchList : List Char → List Char → Bool
  | [], [] => true
  | [], '*' :: ps => fnmatchList [] ps
  | [], _ :: _ => false
  | _ :: _, [] => false
  | _ :: cs, '?' :: ps => fnmatchList cs ps
  | c :: cs, '*' :: ps => fnmatchList (c :: cs) ps || fnmatchList cs ('*' :: ps)
  | c :: cs, p :: ps => c = p && fnmatchList cs ps
termination_by s p => (s.length, p.length)

/-- Python `fnmatch.fnmatch(name, pattern)`. -/
def fnmatch (name pat : String) : Bool := fnmatchList name.data pat.data

/-! ### Constants

Default endpoints come from `circus/util.py` (absent from `src/`; the
values are circus's documented defaults). `RLIM_INFINITY` is the value
of `resource.RLIM_INFINITY` on Linux, `SIGTERM` the POSIX signal
number, `EINTR` the POSIX errno. `papa` is an optional dependency: its
module is not installed here, so loading it fails, which is the
modelled situation. -/

def DEFAULT_ENDPOINT_DEALER : String := "tcp://127.0.0.1:5555"
def DEFAULT_ENDPOINT_SUB : String := "tcp://127.0.0.1:5556"
def DEFAULT_ENDPOINT_MULTICAST : String := "udp://237.219.251.97:12027"
def DEFAULT_ENDPOINT_STATS : String := "tcp://127.0.0.1:5557"
def RLIM_INFINITY : Int := -1
def SIGTERM : Int := 15
def EINTR : Int := 4
def papaAvailable : Bool := false

/-- The warnings `get_config` can emit (`warnings.warn` calls). -/
inductive Warning where
  | statsdDeprecation
  | papaMissing
deriving DecidableEq

/-! ### The parsed INI file

`StrictConfigParser` (from `circus/util.py`, absent from `src/`) is a
standard `configparser` that refuses duplicate sections and options.
The embedding starts from its output: an ordered list of sections, each
an ordered list of `(option, raw value)` pairs. `Ini.Wf` captures the
duplicate-freedom the strict parser guarantees. -/

structure IniSection where
  name : String
  options : List (String × String)

structure Ini where
  sections : List IniSection

/-- Well-formedness guaranteed by `StrictConfigParser`: no duplicate
section names, no duplicate option names within a section. -/
def Ini.Wf (ini : Ini) : Prop :=
  (ini.sections.map IniSection.name).Nodup ∧
    ∀ sec ∈ ini.sections, (sec.options.map Prod.fst).Nodup

def Ini.findSection (ini : Ini) (s : String) : Option IniSection :=
  ini.sections.find? (fun sec => sec.name = s)

/-- Python `cfg.has_option(section, option)`. -/
def hasOption (ini : Ini) (sec opt : String) : Bool :=
  match ini.findSection sec with
  | some s => (s.options.map Prod.fst).contains opt
  | Option.none => false

/-- The raw option value (before GNU-args replacement). -/
def getRaw (ini : Ini) (sec opt : String) : Option String :=
  (ini.findSection sec).bind (fun s => envLookup s.options opt)

/-- `DefaultConfigParser.get`: the raw value with `replace_gnu_args`
applied using the parser's environment. -/
def cfgGet (ini : Ini) (env : StrEnv) (sec opt : String) : Option String :=
  (getRaw ini sec opt).map (fun v => replace_gnu_args v env)

/-- `DefaultConfigParser.items(section)` (replacement applied). -/
def itemsRepl (ini : Ini) (env : StrEnv) (sec : String) : List (String × String) :=
  (((ini.findSection sec).map IniSection.options).getD []).map
    (fun p => (p.1, replace_gnu_args p.2 env))

/-- `DefaultConfigParser.items(section, noreplace=True)`. -/
def itemsRaw (ini : Ini) (sec : String) : List (String × String) :=
  ((ini.findSection sec).map IniSection.options).getD []

/-! ### `DefaultConfigParser.dget`

`dget(section, option, default, type)` returns the default when the
option is absent and otherwise converts the (replaced) string value;
a conversion error raises (`none`). -/

def dgetStr (ini : Ini) (env : StrEnv) (sec opt : String) (dflt : Option String) :
    Option String :=
  match cfgGet ini env sec opt with
  | some v => some v
  | Option.none => dflt

def dgetInt (ini : Ini) (env : StrEnv) (sec opt : String) (dflt : Int) : Option Int :=
  match cfgGet ini env sec opt with
  | some v => py_int v
  | Option.none => some dflt

def dgetFloat (ini : Ini) (env : StrEnv) (sec opt : String) (dflt : Rat) : Option Rat :=
  match cfgGet ini env sec opt with
  | some v => py_float v
  | Option.none => some dflt

def dgetBool (ini : Ini) (env : StrEnv) (sec opt : String) (dflt : Bool) : Option Bool :=
  match cfgGet ini env sec opt with
  | some v => to_bool v
  | Option.none => some dflt

/-! ### `config.py`: `watcher_defaults`, `rlimit_value`, `expand_vars` -/

/-- `config.watcher_defaults()`, entries in source order. -/
def watcher_defaults : Dict :=
  [("name", PyVal.str ""),
   ("cmd", PyVal.str ""),
   ("args", PyVal.str ""),
   ("numprocesses", PyVal.int 1),
   ("warmup_delay", PyVal.int 0),
   ("executable", PyVal.none),
   ("working_dir", PyVal.none),
   ("shell", PyVal.bool false),
   ("uid", PyVal.none),
   ("gid", PyVal.none),
   ("send_hup", PyVal.bool false),
   ("stop_signal", PyVal.int SIGTERM),
   ("stop_children", PyVal.bool false),
   ("max_retry", PyVal.int 5),
   ("graceful_timeout", PyVal.int 30),
   ("rlimits", PyVal.dict []),
   ("stderr_stream", PyVal.dict []),
   ("stdout_stream", PyVal.dict []),
   ("priority", PyVal.int 0),
   ("use_sockets", PyVal.bool false),
   ("singleton", PyVal.bool false),
   ("copy_env", PyVal.bool false),
   ("copy_path", PyVal.bool false),
   ("hooks", PyVal.dict []),
   ("respawn", PyVal.bool true),
   ("autostart", PyVal.bool true),
   ("use_papa", PyVal.bool false)]

/-- `config.rlimit_value(val)`; `resource` is importable on the
modelled POSIX platform and the incoming value is a string, so the
infinity branch fires exactly on the empty string. -/
def rlimit_value (val : String) : Option Int :=
  if val = "" then some RLIM_INFINITY else py_int val

mutual
/-- `config.expand_vars(value, env)`: recursively substitute GNU-style
arguments in every string reachable inside the value. -/
def expand_vars (env : StrEnv) : PyVal → PyVal
  | PyVal.str s => PyVal.str (replace_gnu_args s env)
  | PyVal.dict d => PyVal.dict (expand_vars_entries env d)
  | PyVal.list xs => PyVal.list (expand_vars_list env xs)
  | v => v

/-- The list comprehension of `expand_vars`. -/
def expand_vars_list (env : StrEnv) : List PyVal → List PyVal
  | [] => []
  | x :: xs => expand_vars env x :: expand_vars_list env xs

/-- The dict comprehension of `expand_vars`. -/
def expand_vars_entries (env : StrEnv) : List (String × PyVal) → List (String × PyVal)
  | [] => []
  | (k, v) :: rest => (k, expand_vars env v) :: expand_vars_entries env rest
end

/-! ### `config.get_config`: environments and the first section pass -/

/-- The `[env]` section contents (`local_env` in `get_config`); the
parser environment at this point is still `os.environ`. -/
def local_env (ini : Ini) (osEnv : StrEnv) : StrEnv :=
  if (ini.sections.map IniSection.name).contains "env" then
    (itemsRepl ini osEnv "env").foldl (fun acc p => envSet acc p.1 p.2) []
  else []

/-- `global_env`: a copy of `os.environ` updated with the `[env]`
section. -/
def global_env (ini : Ini) (osEnv : StrEnv) : StrEnv :=
  envUpdate osEnv (local_env ini osEnv)

/-- Python `dict(items)` over string-valued items. -/
def dictOfStrItems (items : List (String × String)) : Dict :=
  items.foldl (fun acc p => dset acc p.1 (PyVal.str p.2)) []

/-- Accumulator of the first section loop of `get_config`: watchers are
kept together with their originating section name (standing for the
shared references in `watchers` / `watchers_map`). -/
structure FirstPassAcc where
  watchers : List (String × Dict)
  plugins : List Dict
  sockets : List Dict

/-- The first-pass skip test: `list(section_items.keys()) in [[],
['__name__']]`. -/
def skipCheck (sec : IniSection) : Bool :=
  sec.options.isEmpty || sec.options.map Prod.fst = ["__name__"]

/-- The watcher dictionary built by the first pass for one watcher
section: `watcher_defaults()` with the name (the section name after
`watcher:`, via `section.split("watcher:", 1)[1]` — the first
occurrence of the prefix is at position 0), the parsed `copy_env` flag
and the initial `env` (a copy of the global or the local environment). -/
def watcherInit (secName : String) (copyEnv : Bool) (genv lenv : StrEnv) : Dict :=
  dset (dset (dset watcher_defaults
    "name" (PyVal.str (pyDrop secName 8)))
    "copy_env" (PyVal.bool copyEnv))
    "env" (PyVal.dict (strDict (if copyEnv then genv else lenv)))

/-- The `socket:` branch of the first section loop. -/
def socket_step (ini : Ini) (genv : StrEnv) (acc : FirstPassAcc) (sec : IniSection)
    (items : List (String × String)) : Option FirstPassAcc :=
  if pyStartswith sec.name "socket:" then do
    let sock := dictOfStrItems items
    let sock := dset sock "name"
      (PyVal.str (pyLower ((pySplitSub sec.name "socket:").getLastD "")))
    let soR ← dgetBool ini genv sec.name "so_reuseport" false
    let sock := dset sock "so_reuseport" (PyVal.bool soR)
    let repl ← dgetBool ini genv sec.name "replace" false
    let sock := dset sock "replace" (PyVal.bool repl)
    pure { acc with sockets := acc.sockets ++ [sock] }
  else pure acc

/-- The `plugin:` branch of the first section loop. -/
def plugin_step (acc : FirstPassAcc) (sec : IniSection)
    (items : List (String × String)) : Option FirstPassAcc :=
  if pyStartswith sec.name "plugin:" then do
    let plugin := dictOfStrItems items
    let plugin := dset plugin "name" (PyVal.str sec.name)
    let plugin ←
      match dlookup plugin "priority" with
      | some (PyVal.str pv) =>
        (py_int pv).map (fun n => dset plugin "priority" (PyVal.int n))
      | some _ => Option.none
      | Option.none => pure plugin
    pure { acc with plugins := acc.plugins ++ [plugin] }
  else pure acc

/-- The `watcher:` branch of the first section loop. -/
def watcher_step (ini : Ini) (genv lenv : StrEnv) (acc : FirstPassAcc)
    (sec : IniSection) : Option FirstPassAcc :=
  if pyStartswith sec.name "watcher:" then do
    let copyEnv ← dgetBool ini genv sec.name "copy_env" false
    pure { acc with watchers :=
      acc.watchers ++ [(sec.name, watcherInit sec.name copyEnv genv lenv)] }
  else pure acc

/-- One iteration of the first section loop of `get_config`
(`for section in cfg.sections(): ...`, lines 210-240). -/
def first_pass_section (ini : Ini) (genv lenv : StrEnv) (acc : FirstPassAcc)
    (sec : IniSection) : Option FirstPassAcc :=
  let items := itemsRepl ini genv sec.name
  if items.isEmpty || items.map Prod.fst = ["__name__"] then some acc
  else do
    let acc ← socket_step ini genv acc sec items
    let acc ← plugin_step acc sec items
    watcher_step ini genv lenv acc sec

/-- The whole first section loop. -/
def first_pass (ini : Ini) (genv lenv : StrEnv) : Option FirstPassAcc :=
  ini.sections.foldlM (first_pass_section ini genv lenv) ⟨[], [], []⟩

/-! ### `get_config`: the `env:` pattern sections -/

def watcherNameOf (w : Dict) : String :=
  match dlookup w "name" with
  | some (PyVal.str s) => s
  | _ => ""

/-- `watcher['env'].update(env_items)`; at this stage of `get_config`
the `env` entry is always the dict stored by the first pass, so the
fallthrough branch is unreachable. -/
def updateWatcherEnv (w : Dict) (items : List (String × String)) : Dict :=
  match dlookup w "env" with
  | some (PyVal.dict d) =>
    dset w "env" (PyVal.dict (items.foldl (fun acc p => dset acc p.1 (PyVal.str p.2)) d))
  | _ => w

/-- One pattern of an `env:` section applied to one watcher. -/
def env_pat_step (ini : Ini) (secName : String) (pr : String × Dict) (pat : String) :
    String × Dict :=
  if fnmatch (watcherNameOf pr.2) pat then
    (pr.1, updateWatcherEnv pr.2 (itemsRaw ini secName))
  else pr

/-- One `env:patterns` section applied to one watcher (the source
iterates sections, then patterns, then matching watchers; the updates
are independent per watcher, so they commute into this per-watcher
form). -/
def apply_env_section (ini : Ini) (sec : IniSection) (pr : String × Dict) :
    String × Dict :=
  if pyStartswith sec.name "env:" then
    let pats := (pySplitAll (pyDrop sec.name 4) ',').map pyStrip
    pats.foldl (env_pat_step ini sec.name) pr
  else pr

/-- All `env:` sections applied to one watcher, in section order. -/
def apply_env_sections (ini : Ini) (pr : String × Dict) : String × Dict :=
  ini.sections.foldl (fun pr sec => apply_env_section ini sec pr) pr

/-! ### `get_config`: the second watcher pass (lines 261-322) -/

/-- A plain string assignment `watcher[key] = val` (the `cmd`-group,
`executable` and the freeform fall-through of the `elif` chain). -/
def optAssignStr (w : Dict) (warns : List Warning) (key val : String) :
    Option (Dict × List Warning) :=
  some (dset w key (PyVal.str val), warns)

/-- `watcher[key] = cfg._dget(val, d, int)`: `val` is a string, so this
is `int(val)`. -/
def optInt (w : Dict) (warns : List Warning) (key val : String) :
    Option (Dict × List Warning) :=
  (py_int val).map (fun n => (dset w key (PyVal.int n), warns))

/-- `watcher[key] = cfg._dget(val, d, bool)`. -/
def optBool (w : Dict) (warns : List Warning) (key val : String) :
    Option (Dict × List Warning) :=
  (to_bool val).map (fun b => (dset w key (PyVal.bool b), warns))

/-- `watcher['stop_signal'] = to_signum(val)`. -/
def optSignal (w : Dict) (warns : List Warning) (val : String) :
    Option (Dict × List Warning) :=
  (to_signum val).map (fun n => (dset w "stop_signal" (PyVal.int n), warns))

/-- The `stderr_stream.` / `stdout_stream.` branch:
`stream_name, stream_opt = opt.split(".", 1)` (no dot raises
`ValueError`), then `watcher[stream_name][stream_opt] = val` (raising
unless `watcher[stream_name]` is one of the stream dicts). -/
def optStream (w : Dict) (warns : List Warning) (opt val : String) :
    Option (Dict × List Warning) :=
  match pySplitOnce opt '.' with
  | some q =>
    (match dlookup w q.1 with
     | some (PyVal.dict sd) =>
       some (dset w q.1 (PyVal.dict (dset sd q.2 (PyVal.str val))), warns)
     | _ => Option.none)
  | Option.none => Option.none

/-- The `rlimit_` branch: `watcher['rlimits'][opt[7:]] =
rlimit_value(val)`. -/
def optRlimit (w : Dict) (warns : List Warning) (opt val : String) :
    Option (Dict × List Warning) :=
  match dlookup w "rlimits" with
  | some (PyVal.dict rd) =>
    (rlimit_value val).map (fun n =>
      (dset w "rlimits" (PyVal.dict (dset rd (pyDrop opt 7) (PyVal.int n))), warns))
  | _ => Option.none

/-- The `use_papa` branch. The `elif` condition itself evaluates
`cfg._dget(val, False, bool)`; when that is `False` control falls
through the remaining `elif`s to the freeform assignment. -/
def optUsePapa (w : Dict) (warns : List Warning) (val : String) :
    Option (Dict × List Warning) := do
  let b ← to_bool val
  if b then
    if papaAvailable then some (dset w "use_papa" (PyVal.bool true), warns)
    else some (w, warns ++ [Warning.papaMissing])
  else
    some (dset w "use_papa" (PyVal.str val), warns)

/-- The `hooks.` branch: split the value at the first comma, strip the
parts, parse the optional boolean, and store
`watcher['hooks'][opt[6:]]`. -/
def optHooks (w : Dict) (warns : List Warning) (opt val : String) :
    Option (Dict × List Warning) :=
  match dlookup w "hooks" with
  | some (PyVal.dict hd) =>
    (match pySplitOnce val ',' with
     | Option.none =>
       some (dset w "hooks" (PyVal.dict (dset hd (pyDrop opt 6)
         (PyVal.list [PyVal.str (pyStrip val), PyVal.bool false]))), warns)
     | some q =>
       (to_bool (pyStrip q.2)).map (fun bl =>
         (dset w "hooks" (PyVal.dict (dset hd (pyDrop opt 6)
           (PyVal.list [PyVal.str (pyStrip q.1), PyVal.bool bl]))), warns)))
  | _ => Option.none

/-- One `opt, val` pair of a watcher section applied to the watcher
dictionary, following the `elif` chain of the source (lines 269-322);
`expand_vars` on the string value is `replace_gnu_args`. -/
def applyWatcherOption (wenv : StrEnv) (st : Dict × List Warning) (p : String × String) :
    Option (Dict × List Warning) :=
  let w := st.1
  let warns := st.2
  let opt := p.1
  let val := replace_gnu_args p.2 wenv
  if opt = "cmd" || opt = "args" || opt = "working_dir" || opt = "uid" || opt = "gid" then
    optAssignStr w warns opt val
  else if opt = "numprocesses" then optInt w warns "numprocesses" val
  else if opt = "warmup_delay" then optInt w warns "warmup_delay" val
  else if opt = "executable" then optAssignStr w warns "executable" val
  else if opt = "shell" || opt = "send_hup" || opt = "stop_children" ||
      opt = "close_child_stderr" || opt = "use_sockets" || opt = "singleton" ||
      opt = "copy_env" || opt = "copy_path" || opt = "close_child_stdout" then
    optBool w warns opt val
  else if opt = "stop_signal" then optSignal w warns val
  else if opt = "max_retry" then optInt w warns "max_retry" val
  else if opt = "graceful_timeout" then optInt w warns "graceful_timeout" val
  else if pyStartswith opt "stderr_stream" || pyStartswith opt "stdout_stream" then
    optStream w warns opt val
  else if pyStartswith opt "rlimit_" then optRlimit w warns opt val
  else if opt = "priority" then optInt w warns "priority" val
  else if opt = "use_papa" then optUsePapa w warns val
  else if pyStartswith opt "hooks." then optHooks w warns opt val
  else if opt = "check_flapping" || opt = "respawn" || opt = "autostart" ||
      opt = "close_child_stdin" then
    optBool w warns opt val
  else optAssignStr w warns opt val

/-- The body of the second pass for one watcher section:
`env = dict(global_env); env.update(watcher['env'])`, then the option
loop over the raw section items. -/
def second_pass_watcher (ini : Ini) (genv : StrEnv) (pr : String × Dict) :
    Option (Dict × List Warning) :=
  let wenv := envUpdate genv (envStringsOf (dlookup pr.2 "env"))
  (itemsRaw ini pr.1).foldlM (applyWatcherOption wenv) (pr.2, [])

/-- One watcher of the second pass, appended to the accumulated
result. -/
def second_pass_step (ini : Ini) (genv : StrEnv)
    (acc : List (String × Dict) × List Warning) (pr : String × Dict) :
    Option (List (String × Dict) × List Warning) := do
  let r ← second_pass_watcher ini genv pr
  pure (acc.1 ++ [(pr.1, r.1)], acc.2 ++ r.2)

/-- The second section loop. The source walks all sections and looks
watcher sections up in `watchers_map`; a watcher section skipped by the
first pass (empty) is absent from the map, so the lookup raises
`KeyError`. Each present watcher is updated exactly once and the
updates are independent, so the loop is a traversal of the watcher
list. -/
def second_pass (ini : Ini) (genv : StrEnv) (prs : List (String × Dict)) :
    Option (List (String × Dict) × List Warning) :=
  if ini.sections.any (fun sec => pyStartswith sec.name "watcher:" && skipCheck sec) then
    Option.none
  else
    prs.foldlM (second_pass_step ini genv) ([], [])

/-! ### `get_config`: the global options and the assembled snapshot -/

def optStrVal : Option String → PyVal
  | some s => PyVal.str s
  | Option.none => PyVal.none

/-- Lines 183-189 of `config.py`: a missing `stats_endpoint` defaults,
while a configured one without `statsd=true` warns (deprecation) and
silently turns `statsd` on. Returns the final `stats_endpoint`, the
final `statsd` and the emitted warnings. -/
def stats_fix (se0 : Option String) (sd0 : Bool) : String × Bool × List Warning :=
  match se0 with
  | Option.none => (DEFAULT_ENDPOINT_STATS, sd0, [])
  | some se =>
    if sd0 then (se, sd0, []) else (se, true, [Warning.statsdDeprecation])

/-- The global `[circus]` options of `get_config` (lines 170-202),
including the octal `umask` conversion and the `stats_endpoint`
deprecation fix-up, assembled in assignment order. -/
def main_options (ini : Ini) (genv : StrEnv) : Option (Dict × List Warning) := do
  let check_delay ← dgetFloat ini genv "circus" "check_delay" 5
  let endpoint := dgetStr ini genv "circus" "endpoint" (some DEFAULT_ENDPOINT_DEALER)
  let endpoint_owner := dgetStr ini genv "circus" "endpoint_owner" Option.none
  let pubsub_endpoint := dgetStr ini genv "circus" "pubsub_endpoint" (some DEFAULT_ENDPOINT_SUB)
  let multicast_endpoint :=
    dgetStr ini genv "circus" "multicast_endpoint" (some DEFAULT_ENDPOINT_MULTICAST)
  let stats_endpoint0 := dgetStr ini genv "circus" "stats_endpoint" Option.none
  let statsd0 ← dgetBool ini genv "circus" "statsd" false
  let umask0 := dgetStr ini genv "circus" "umask" Option.none
  let umask ← (match umask0 with
    | some s => if s = "" then pure (PyVal.str s) else (py_octal s).map PyVal.int
    | Option.none => pure PyVal.none)
  let statsFix := stats_fix stats_endpoint0 statsd0
  let warmup_delay ← dgetInt ini genv "circus" "warmup_delay" 0
  let httpd ← dgetBool ini genv "circus" "httpd" false
  let httpd_host := dgetStr ini genv "circus" "httpd_host" (some "localhost")
  let httpd_port ← dgetInt ini genv "circus" "httpd_port" 8080
  let debug ← dgetBool ini genv "circus" "debug" false
  let debug_gc ← dgetBool ini genv "circus" "debug_gc" false
  let pidfile := dgetStr ini genv "circus" "pidfile" Option.none
  let loglevel := dgetStr ini genv "circus" "loglevel" Option.none
  let logoutput := dgetStr ini genv "circus" "logoutput" Option.none
  let loggerconfig := dgetStr ini genv "circus" "loggerconfig" Option.none
  let fqdn_prefix := dgetStr ini genv "circus" "fqdn_prefix" Option.none
  let papa_endpoint := dgetStr ini genv "circus" "papa_endpoint" Option.none
  pure ([("check_delay", PyVal.float check_delay),
    ("endpoint", optStrVal endpoint),
    ("endpoint_owner", optStrVal endpoint_owner),
    ("pubsub_endpoint", optStrVal pubsub_endpoint),
    ("multicast_endpoint", optStrVal multicast_endpoint),
    ("stats_endpoint", PyVal.str statsFix.1),
    ("statsd", PyVal.bool statsFix.2.1),
    ("umask", umask),
    ("warmup_delay", PyVal.int warmup_delay),
    ("httpd", PyVal.bool httpd),
    ("httpd_host", optStrVal httpd_host),
    ("httpd_port", PyVal.int httpd_port),
    ("debug", PyVal.bool debug),
    ("debug_gc", PyVal.bool debug_gc),
    ("pidfile", optStrVal pidfile),
    ("loglevel", optStrVal loglevel),
    ("logoutput", optStrVal logoutput),
    ("loggerconfig", optStrVal loggerconfig),
    ("fqdn_prefix", optStrVal fqdn_prefix),
    ("papa_endpoint", optStrVal papa_endpoint)], statsFix.2.2)

/-- `config.get_config`, from the parsed INI content and the parent
process environment to the configuration snapshot and the warnings it
emits. `none` models a raised exception. -/
def get_config (ini : Ini) (osEnv : StrEnv) : Option (Dict × List Warning) := do
  let lenv := local_env ini osEnv
  let genv := global_env ini osEnv
  let mo ← main_options ini genv
  let fp ← first_pass ini genv lenv
  -- sort_by_field is called before the second pass has parsed any
  -- priority option of a watcher section
  let wprs := sort_by_field (fun pr => priorityOf pr.2) fp.watchers
  let plugins := sort_by_field priorityOf fp.plugins
  let sockets := sort_by_field priorityOf fp.sockets
  let wprs := wprs.map (apply_env_sections ini)
  let sp ← second_pass ini genv wprs
  pure (dset (dset (dset mo.1
      "watchers" (PyVal.list (sp.1.map (fun pr => PyVal.dict pr.2))))
      "plugins" (PyVal.list (plugins.map PyVal.dict)))
      "sockets" (PyVal.list (sockets.map PyVal.dict)), mo.2 ++ sp.2)

/-! ### `consumer.py`: `CircusConsumer`

The zmq socket and context are external collaborators; the embedding
models the loop of `iter_messages` over a finite prefix of the socket's
event stream, and `stop` over the zmq-visible teardown state. -/

/-- One interaction of the `iter_messages` loop with zmq: `poller.poll`
raises `ZMQError(e)`, returns no events, or returns events after which
`recv_multipart` yields a `(topic, message)` frame pair. -/
inductive ZmqEvent where
  | pollError (e : Int)
  | pollTimeout
  | message (topic payload : String)
deriving DecidableEq

namespace CircusConsumer

/-- The zmq-visible state of a `CircusConsumer`: whether the caller
supplied the context at construction (`keep_context`), whether the
subscriber socket has been closed and whether the context has been
released. -/
structure State where
  keepContext : Bool
  socketClosed : Bool
  contextReleased : Bool
deriving DecidableEq

/-- `CircusConsumer.iter_messages` over a finite prefix of the socket's
event stream: the `(topic, message)` pairs the generator yields, and
the errno of a re-raised `ZMQError` if the loop terminated that way. -/
def iter_messages : List ZmqEvent → List (String × String) × Option Int
  | [] => ([], Option.none)
  | ZmqEvent.pollError e :: rest =>
    if e = EINTR then iter_messages rest else ([], some e)
  | ZmqEvent.pollTimeout :: rest => iter_messages rest
  | ZmqEvent.message t m :: rest =>
    let r := iter_messages rest
    ((t, m) :: r.1, r.2)

/-- `CircusConsumer.stop`. `destroyErr` is the errno of the `ZMQError`
raised by `context.destroy(0)`, if any; destroying the self-created
context closes its sockets. The result is the state after the call, or
the errno of a re-raised error. -/
def stop (s : State) (destroyErr : Option Int) : Except Int State :=
  if s.keepContext then Except.ok s
  else
    match destroyErr with
    | Option.none =>
      Except.ok { s with socketClosed := true, contextReleased := true }
    | some e => if e = EINTR then Except.ok s else Except.error e

/-- `CircusConsumer.__exit__`: leaving the context manager calls
`stop`. -/
def contextExit (s : State) (destroyErr : Option Int) : Except Int State :=
  stop s destroyErr

end CircusConsumer

/-! ### `share.py`, Windows branch

`os_open` is modelled up to the `_winapi.CreateFile` call: the returned
record carries the arguments that call receives together with the flags
passed on to `msvcrt.open_osfhandle`. The Win32 constants are the ones
defined in the source; the `os.O_*` values are CPython's on Windows.
The source names `_ACCESS_MASK`/`_ACCESS_MAP`/`_CREATE_MASK`/
`_CREATE_MAP` are embedded without the leading underscore. -/

namespace Share

def CREATE_NEW : Int := 1
def CREATE_ALWAYS : Int := 2
def OPEN_EXISTING : Int := 3
def OPEN_ALWAYS : Int := 4
def TRUNCATE_EXISTING : Int := 5
def FILE_SHARE_READ : Int := 0x00000001
def FILE_SHARE_WRITE : Int := 0x00000002
def FILE_SHARE_DELETE : Int := 0x00000004
def FILE_SHARE_VALID_FLAGS : Int := 0x00000007
def FILE_ATTRIBUTE_READONLY : Int := 0x00000001
def FILE_ATTRIBUTE_NORMAL : Int := 0x00000080
def FILE_ATTRIBUTE_TEMPORARY : Int := 0x00000100
def FILE_FLAG_DELETE_ON_CLOSE : Int := 0x04000000
def FILE_FLAG_SEQUENTIAL_SCAN : Int := 0x08000000
def FILE_FLAG_RANDOM_ACCESS : Int := 0x10000000
def GENERIC_READ : Int := 0x80000000
def GENERIC_WRITE : Int := 0x40000000
def DELETE : Int := 0x00010000

def O_RDONLY : Int := 0
def O_WRONLY : Int := 1
def O_RDWR : Int := 2
def O_CREAT : Int := 0x100
def O_TRUNC : Int := 0x200
def O_EXCL : Int := 0x400
def O_TEMPORARY : Int := 0x40
def O_SHORT_LIVED : Int := 0x1000
def O_SEQUENTIAL : Int := 0x20
def O_RANDOM : Int := 0x10
def O_NOINHERIT : Int := 0x80

def ACCESS_MASK : Int := Int.lor (Int.lor O_RDONLY O_WRONLY) O_RDWR

def ACCESS_MAP : List (Int × Int) :=
  [(O_RDONLY, GENERIC_READ),
   (O_WRONLY, GENERIC_WRITE),
   (O_RDWR, Int.lor GENERIC_READ GENERIC_WRITE)]

def CREATE_MASK : Int := Int.lor (Int.lor O_CREAT O_EXCL) O_TRUNC

def CREATE_MAP : List (Int × Int) :=
  [(0, OPEN_EXISTING),
   (O_EXCL, OPEN_EXISTING),
   (O_CREAT, OPEN_ALWAYS),
   (Int.lor O_CREAT O_EXCL, CREATE_NEW),
   (Int.lor (Int.lor O_CREAT O_TRUNC) O_EXCL, CREATE_NEW),
   (O_TRUNC, TRUNCATE_EXISTING),
   (Int.lor O_TRUNC O_EXCL, TRUNCATE_EXISTING),
   (Int.lor O_CREAT O_TRUNC, CREATE_ALWAYS)]

/-- Python dict lookup on the integer-keyed maps; `none` is a raised
`KeyError`. -/
def mapLookup : List (Int × Int) → Int → Option Int
  | [], _ => Option.none
  | (k, v) :: rest, x => if k = x then some v else mapLookup rest x

/-- The exceptions `os_open` itself can raise before reaching
`CreateFile`. -/
inductive OsOpenErr where
  | valueError
  | keyError
deriving DecidableEq

/-- The arguments `_winapi.CreateFile` receives, plus the flags passed
to `msvcrt.open_osfhandle`. -/
structure CreateFileArgs where
  accessFlags : Int
  shareFlags : Int
  createFlags : Int
  attribFlags : Int
  fdFlags : Int
deriving DecidableEq

/-- `share.os_open` (Windows branch) on integer `flags` and `mode`.
For `int` inputs the two `isinstance` guards never fire: Python's
`not isinstance(flags, int) and mode >= 0` short-circuits to `False`. -/
def os_open (flags mode share_flags : Int) : Except OsOpenErr CreateFileArgs :=
  if Int.land share_flags (Int.lnot FILE_SHARE_VALID_FLAGS) ≠ 0 then
    Except.error OsOpenErr.valueError
  else
    match mapLookup ACCESS_MAP (Int.land flags ACCESS_MASK) with
    | Option.none => Except.error OsOpenErr.keyError
    | some access0 =>
      match mapLookup CREATE_MAP (Int.land flags CREATE_MASK) with
      | Option.none => Except.error OsOpenErr.keyError
      | some create_flags =>
        let attrib0 :=
          if Int.land flags O_CREAT ≠ 0 ∧ Int.land mode (Int.lnot 0o444) = 0 then
            FILE_ATTRIBUTE_READONLY
          else FILE_ATTRIBUTE_NORMAL
        let share1 :=
          if Int.land flags O_TEMPORARY ≠ 0 then Int.lor share_flags FILE_SHARE_DELETE
          else share_flags
        let attrib1 :=
          if Int.land flags O_TEMPORARY ≠ 0 then Int.lor attrib0 FILE_FLAG_DELETE_ON_CLOSE
          else attrib0
        let access1 :=
          if Int.land flags O_TEMPORARY ≠ 0 then Int.lor access0 DELETE
          else access0
        let attrib2 :=
          if Int.land flags O_SHORT_LIVED ≠ 0 then Int.lor attrib1 FILE_ATTRIBUTE_TEMPORARY
          else attrib1
        let attrib3 :=
          if Int.land flags O_SEQUENTIAL ≠ 0 then Int.lor attrib2 FILE_FLAG_SEQUENTIAL_SCAN
          else attrib2
        let attrib4 :=
          if Int.land flags O_RANDOM ≠ 0 then Int.lor attrib3 FILE_FLAG_RANDOM_ACCESS
          else attrib3
        Except.ok
          { accessFlags := access1, shareFlags := share1, createFlags := create_flags,
            attribFlags := attrib4, fdFlags := Int.lor flags O_NOINHERIT }

end Share

/-! ### Projections and concrete configurations used by the theorems -/

/-- Project, for each watcher of a snapshot, the value of one field
(used to exhibit concrete snapshots compactly). -/
def watchersProj (r : Option (Dict × List Warning)) (k : String) :
    Option (List (Option PyVal)) :=
  match r with
  | some (c, _) =>
    match dlookup c "watchers" with
    | some (PyVal.list xs) =>
      some (xs.map (fun x =>
        match x with
        | PyVal.dict d => dlookup d k
        | _ => Option.none))
    | _ => Option.none
  | Option.none => Option.none

/-- The first watcher dictionary of a snapshot. -/
def firstWatcher (r : Option (Dict × List Warning)) : Option Dict :=
  match r with
  | some (c, _) =>
    match dlookup c "watchers" with
    | some (PyVal.list (PyVal.dict d :: _)) => some d
    | _ => Option.none
  | _ => Option.none

/-- Look a key up inside a watcher's `env` dictionary. -/
def watcherEnvLookup (d : Dict) (k : String) : Option PyVal :=
  match dlookup d "env" with
  | some (PyVal.dict ed) => dlookup ed k
  | _ => Option.none

/-- Two watcher sections whose explicit priorities (1 and 2) invert the
section order. -/
def iniPriorities : Ini :=
  ⟨[⟨"watcher:a", [("cmd", "foo"), ("priority", "1")]⟩,
    ⟨"watcher:b", [("cmd", "bar"), ("priority", "2")]⟩]⟩

/-- A `[circus]` section configuring `stats_endpoint` but not `statsd`. -/
def iniStats : Ini := ⟨[⟨"circus", [("stats_endpoint", "tcp://127.0.0.1:9999")]⟩]⟩

/-- A `[circus]` section with `statsd = true` and no `stats_endpoint`. -/
def iniStatsdOnly : Ini := ⟨[⟨"circus", [("statsd", "true")]⟩]⟩

/-- A watcher with `copy_env = true` and `copy_path` left at its
default `false`. -/
def iniCopyEnv : Ini := ⟨[⟨"watcher:w", [("cmd", "foo"), ("copy_env", "true")]⟩]⟩

/-- A watcher with an `rlimit_core = -1` option. -/
def iniRlimit : Ini := ⟨[⟨"watcher:w", [("cmd", "foo"), ("rlimit_core", "-1")]⟩]⟩

/-- A minimal configuration: one watcher section with only `cmd`. -/
def iniMinimal : Ini := ⟨[⟨"watcher:w", [("cmd", "foo")]⟩]⟩

/-! ## Lemmas: dictionaries and environments -/

theorem dlookup_dset (d : Dict) (k k' : String) (v : PyVal) :
    dlookup (dset d k v) k' = if k = k' then some v else dlookup d k' := by
  induction d with
  | nil => simp [dset, dlookup]
  | cons p rest ih =>
    obtain ⟨pk, pv⟩ := p
    by_cases h1 : pk = k
    · subst h1
      by_cases h2 : pk = k' <;> simp [dset, dlookup, h2]
    · by_cases h2 : pk = k'
      · subst h2
        have : ¬ k = pk := fun hh => h1 hh.symm
        simp [dset, dlookup, h1, this, ih]
      · simp [dset, dlookup, h1, h2, ih]

theorem envLookup_envSet (e : StrEnv) (k k' v : String) :
    envLookup (envSet e k v) k' = if k = k' then some v else envLookup e k' := by
  induction e with
  | nil => simp [envSet, envLookup]
  | cons p rest ih =>
    obtain ⟨pk, pv⟩ := p
    by_cases h1 : pk = k
    · subst h1
      by_cases h2 : pk = k' <;> simp [envSet, envLookup, h2]
    · by_cases h2 : pk = k'
      · subst h2
        have : ¬ k = pk := fun hh => h1 hh.symm
        simp [envSet, envLookup, h1, this, ih]
      · simp [envSet, envLookup, h1, h2, ih]

theorem dlookup_strDict (e : StrEnv) (k : String) :
    dlookup (strDict e) k = (envLookup e k).map PyVal.str := by
  induction e with
  | nil => simp [strDict, dlookup, envLookup]
  | cons p rest ih =>
    by_cases h : p.1 = k
    · simp [strDict, dlookup, envLookup, h]
    · simp only [strDict, List.map_cons, dlookup, envLookup, h, if_neg h]
      exact ih

theorem envLookup_isSome_iff (e : StrEnv) (k : String) :
    (envLookup e k).isSome = true ↔ k ∈ e.map Prod.fst := by
  induction e with
  | nil => simp [envLookup]
  | cons p rest ih =>
    obtain ⟨pk, pv⟩ := p
    by_cases h : pk = k
    · subst h; simp [envLookup]
    · have h' : ¬ k = pk := fun hh => h hh.symm
      simp [envLookup, h, h', ih]

theorem envLookup_eq_none_iff (e : StrEnv) (k : String) :
    envLookup e k = Option.none ↔ k ∉ e.map Prod.fst := by
  rw [← envLookup_isSome_iff]
  cases envLookup e k <;> simp

/-- `envUpdate` looks up in the update first, then in the base. -/
theorem envLookup_envUpdate (base upd : StrEnv) (k : String)
    (h : (upd.map Prod.fst).Nodup) :
    envLookup (envUpdate base upd) k =
      match envLookup upd k with
      | some v => some v
      | Option.none => envLookup base k := by
  induction upd generalizing base with
  | nil => simp [envUpdate, envLookup]
  | cons p rest ih =>
    obtain ⟨pk, pv⟩ := p
    simp only [List.map_cons, List.nodup_cons] at h
    have step : envUpdate base ((pk, pv) :: rest) = envUpdate (envSet base pk pv) rest := by
      simp [envUpdate]
    rw [step, ih _ h.2]
    by_cases hk : pk = k
    · subst hk
      have hnone : envLookup rest pk = Option.none := by
        rw [envLookup_eq_none_iff]; exact h.1
      simp [envLookup, hnone, envLookup_envSet]
    · have : ¬ pk = k := hk
      simp [envLookup, this, envLookup_envSet]

/-! ## Lemmas: prefixes and string manipulation -/

theorem strData_append (a b : String) : (a ++ b).data = a.data ++ b.data := rfl

theorem listLeads_append_self : ∀ (p l : List Char), listLeads p (p ++ l) = true := by
  intro p
  induction p with
  | nil => intro l; rfl
  | cons a ps ih => intro l; simp [listLeads, ih]

theorem pyStartswith_append_self (p r : String) : pyStartswith (p ++ r) p = true := by
  simp [pyStartswith, strData_append, listLeads_append_self]

/-- If `q` does not start with `p`, then no extension of `p` equals `q`. -/
theorem append_ne_of_not_startswith {p q : String} (h : pyStartswith q p = false)
    (r : String) : p ++ r ≠ q := by
  intro he
  rw [← he, pyStartswith_append_self] at h
  cases h

theorem listLeads_of_both : ∀ (l p q : List Char), listLeads p l = true →
    listLeads q l = true → p.length ≤ q.length → listLeads p q = true := by
  intro l
  induction l with
  | nil =>
    intro p q hp hq _
    cases p with
    | nil => rfl
    | cons a ps => simp [listLeads] at hp
  | cons c cs ih =>
    intro p q hp hq hlen
    cases p with
    | nil => rfl
    | cons a ps =>
      cases q with
      | nil => simp at hlen
      | cons b qs =>
        simp only [listLeads, Bool.and_eq_true, decide_eq_true_eq] at hp hq ⊢
        simp only [List.length_cons, Nat.add_le_add_iff_right] at hlen
        exact ⟨hp.1.trans hq.1.symm, ih ps qs hp.2 hq.2 hlen⟩

/-- Two `startswith` facts on the same string reduce to one between the
prefixes. -/
theorem startswith_of_both {s p q : String} (hp : pyStartswith s p = true)
    (hq : pyStartswith s q = true) (hlen : p.data.length ≤ q.data.length) :
    listLeads p.data q.data = true :=
  listLeads_of_both s.data p.data q.data hp hq hlen

theorem listLeads_take : ∀ (p l : List Char), listLeads p l = true →
    l.take p.length = p := by
  intro p
  induction p with
  | nil => intro l _; simp
  | cons a ps ih =>
    intro l h
    cases l with
    | nil => simp [listLeads] at h
    | cons c cs =>
      simp only [listLeads, Bool.and_eq_true, decide_eq_true_eq] at h
      simp [List.take, ih cs h.2, h.1.symm]

/-- A string starting with `p` is `p` followed by the rest. -/
theorem eq_append_drop_of_startswith {s p : String} (h : pyStartswith s p = true) :
    s = p ++ pyDrop s p.data.length := by
  have hdata : s.data = p.data ++ s.data.drop p.data.length := by
    conv_lhs => rw [← List.take_append_drop p.data.length s.data]
    rw [listLeads_take p.data s.data h]
  cases s with
  | mk d => cases p with
    | mk pd =>
      show String.mk d = String.mk (pd ++ List.drop pd.length d)
      exact congrArg String.mk hdata

/-! ## Lemmas: `replace_gnu_args` on dollar-free strings -/

theorem rgaFuel_no_dollar (env : StrEnv) :
    ∀ (l : List Char) (fuel : Nat), l.length ≤ fuel → (∀ c ∈ l, c ≠ '$') →
      rgaFuel env fuel l = l := by
  intro l
  induction l with
  | nil => intro fuel _ _; cases fuel <;> rfl
  | cons c rest ih =>
    intro fuel hfuel h
    cases fuel with
    | zero => simp at hfuel
    | succ f =>
      have hc : c ≠ '$' := h c (by simp)
      have hr : ∀ a ∈ rest, a ≠ '$' := fun a ha => h a (by simp [ha])
      have hf : rest.length ≤ f := by
        simp only [List.length_cons] at hfuel; omega
      simp [rgaFuel, hc, ih f hf hr]

theorem rgaList_no_dollar (env : StrEnv) (l : List Char) (h : ∀ c ∈ l, c ≠ '$') :
    rgaList env l = l :=
  rgaFuel_no_dollar env l l.length (Nat.le_refl _) h

theorem replace_gnu_args_no_dollar (s : String) (env : StrEnv)
    (h : ∀ c ∈ s.data, c ≠ '$') : replace_gnu_args s env = s := by
  cases s with
  | mk d => exact congrArg String.mk (rgaList_no_dollar env d h)

/-! ## Lemmas: the stable sort -/

theorem mem_insertDesc (key : α → Int) (x y : α) :
    ∀ (l : List α), (x ∈ insertDesc key y l ↔ x = y ∨ x ∈ l) := by
  intro l
  induction l with
  | nil => simp [insertDesc]
  | cons a as ih =>
    unfold insertDesc
    split <;> simp only [List.mem_cons, ih] <;> tauto

theorem mem_sort_by_field (key : α → Int) (x : α) :
    ∀ (l : List α), (x ∈ sort_by_field key l ↔ x ∈ l) := by
  intro l
  induction l with
  | nil => simp [sort_by_field]
  | cons a as ih =>
    show x ∈ insertDesc key a (sort_by_field key as) ↔ _
    rw [mem_insertDesc]
    simp [ih]

/-! ## Lemmas: the `env:` sections touch only the `env` field -/

theorem dlookup_updateWatcherEnv (w : Dict) (items : List (String × String))
    (k : String) (hk : k ≠ "env") :
    dlookup (updateWatcherEnv w items) k = dlookup w k := by
  unfold updateWatcherEnv
  cases hv : dlookup w "env" with
  | none => rfl
  | some v =>
    cases v <;> simp only [hv] <;>
      first
        | rfl
        | rw [dlookup_dset, if_neg (fun h => hk h.symm)]

theorem env_pat_step_fst (ini : Ini) (secName : String) (pr : String × Dict)
    (pat : String) : (env_pat_step ini secName pr pat).1 = pr.1 := by
  unfold env_pat_step
  split <;> rfl

theorem env_pat_step_dlookup (ini : Ini) (secName : String) (pr : String × Dict)
    (pat : String) (k : String) (hk : k ≠ "env") :
    dlookup (env_pat_step ini secName pr pat).2 k = dlookup pr.2 k := by
  unfold env_pat_step
  split
  · exact dlookup_updateWatcherEnv pr.2 _ k hk
  · rfl

theorem foldl_env_pat_fst (ini : Ini) (secName : String) :
    ∀ (pats : List String) (pr : String × Dict),
      (pats.foldl (env_pat_step ini secName) pr).1 = pr.1 := by
  intro pats
  induction pats with
  | nil => intro pr; rfl
  | cons p ps ih =>
    intro pr
    simp only [List.foldl_cons]
    rw [ih, env_pat_step_fst]

theorem foldl_env_pat_dlookup (ini : Ini) (secName : String) (k : String)
    (hk : k ≠ "env") :
    ∀ (pats : List String) (pr : String × Dict),
      dlookup (pats.foldl (env_pat_step ini secName) pr).2 k = dlookup pr.2 k := by
  intro pats
  induction pats with
  | nil => intro pr; rfl
  | cons p ps ih =>
    intro pr
    simp only [List.foldl_cons]
    rw [ih, env_pat_step_dlookup _ _ _ _ _ hk]

theorem apply_env_section_fst (ini : Ini) (sec : IniSection) (pr : String × Dict) :
    (apply_env_section ini sec pr).1 = pr.1 := by
  unfold apply_env_section
  split
  · exact foldl_env_pat_fst _ _ _ _
  · rfl

theorem apply_env_section_dlookup (ini : Ini) (sec : IniSection) (pr : String × Dict)
    (k : String) (hk : k ≠ "env") :
    dlookup (apply_env_section ini sec pr).2 k = dlookup pr.2 k := by
  unfold apply_env_section
  split
  · exact foldl_env_pat_dlookup _ _ _ hk _ _
  · rfl

theorem apply_env_sections_fst (ini : Ini) (pr : String × Dict) :
    (apply_env_sections ini pr).1 = pr.1 := by
  unfold apply_env_sections
  generalize ini.sections = secs
  induction secs generalizing pr with
  | nil => rfl
  | cons s ss ih =>
    simp only [List.foldl_cons]
    rw [ih, apply_env_section_fst]

theorem apply_env_sections_dlookup (ini : Ini) (pr : String × Dict) (k : String)
    (hk : k ≠ "env") :
    dlookup (apply_env_sections ini pr).2 k = dlookup pr.2 k := by
  unfold apply_env_sections
  generalize ini.sections = secs
  induction secs generalizing pr with
  | nil => rfl
  | cons s ss ih =>
    simp only [List.foldl_cons]
    rw [ih, apply_env_section_dlookup _ _ _ _ hk]

/-- With no `env:` section, the `env:` phase is the identity. -/
theorem apply_env_sections_id (ini : Ini) (pr : String × Dict)
    (h : ∀ sec ∈ ini.sections, pyStartswith sec.name "env:" = false) :
    apply_env_sections ini pr = pr := by
  unfold apply_env_sections
  have : ∀ (secs : List IniSection),
      (∀ sec ∈ secs, pyStartswith sec.name "env:" = false) →
      ∀ pr, secs.foldl (fun pr sec => apply_env_section ini sec pr) pr = pr := by
    intro secs
    induction secs with
    | nil => intro _ pr; rfl
    | cons s ss ih =>
      intro hh pr
      have hs : pyStartswith s.name "env:" = false := hh s (by simp)
      simp only [List.foldl_cons]
      have : apply_env_section ini s pr = pr := by
        unfold apply_env_section
        rw [hs]
        simp
      rw [this, ih (fun sec hsec => hh sec (by simp [hsec]))]
  exact this ini.sections h pr

/-! ## Lemmas: first-pass steps and membership -/

theorem socket_step_watchers {ini : Ini} {genv : StrEnv} {acc : FirstPassAcc}
    {sec : IniSection} {items : List (String × String)} {acc' : FirstPassAcc}
    (h : socket_step ini genv acc sec items = some acc') :
    acc'.watchers = acc.watchers := by
  unfold socket_step at h
  split at h
  · simp only [Option.bind_eq_bind', Option.bind_eq_some, Option.pure_def, Option.some.injEq] at h
    obtain ⟨soR, _, repl, _, rfl⟩ := h
    rfl
  · simp only [Option.pure_def, Option.some.injEq] at h
    subst h
    rfl

theorem plugin_step_watchers {acc : FirstPassAcc} {sec : IniSection}
    {items : List (String × String)} {acc' : FirstPassAcc}
    (h : plugin_step acc sec items = some acc') :
    acc'.watchers = acc.watchers := by
  simp only [plugin_step] at h
  split at h
  · split at h
    · simp only [Option.bind_eq_bind', Option.bind_eq_some, Option.pure_def,
        Option.some.injEq] at h
      obtain ⟨y, _, rfl⟩ := h
      rfl
    · simp at h
    · simp only [Option.bind_eq_bind', Option.bind_eq_some, Option.pure_def,
        Option.some.injEq] at h
      obtain ⟨y, _, rfl⟩ := h
      rfl
  · simp only [Option.pure_def, Option.some.injEq] at h
    subst h
    rfl

theorem watcher_step_watchers {ini : Ini} {genv lenv : StrEnv} {acc : FirstPassAcc}
    {sec : IniSection} {acc' : FirstPassAcc}
    (h : watcher_step ini genv lenv acc sec = some acc') :
    acc'.watchers = acc.watchers ∨
      (pyStartswith sec.name "watcher:" = true ∧ ∃ b,
        dgetBool ini genv sec.name "copy_env" false = some b ∧
        acc'.watchers = acc.watchers ++ [(sec.name, watcherInit sec.name b genv lenv)]) := by
  unfold watcher_step at h
  split at h
  · rename_i hs
    simp only [Option.bind_eq_bind', Option.bind_eq_some, Option.pure_def, Option.some.injEq] at h
    obtain ⟨b, hb, rfl⟩ := h
    exact Or.inr ⟨hs, b, hb, rfl⟩
  · simp only [Option.pure_def, Option.some.injEq] at h
    subst h
    exact Or.inl rfl

theorem watcher_step_of_starts {ini : Ini} {genv lenv : StrEnv} {acc : FirstPassAcc}
    {sec : IniSection} {acc' : FirstPassAcc}
    (h : watcher_step ini genv lenv acc sec = some acc')
    (hs : pyStartswith sec.name "watcher:" = true) :
    ∃ b, dgetBool ini genv sec.name "copy_env" false = some b ∧
      acc'.watchers = acc.watchers ++ [(sec.name, watcherInit sec.name b genv lenv)] := by
  rcases watcher_step_watchers h with he | ⟨_, b, hb, he⟩
  · unfold watcher_step at h
    rw [if_pos hs] at h
    simp only [Option.bind_eq_bind', Option.bind_eq_some, Option.pure_def, Option.some.injEq] at h
    obtain ⟨b, hb, rfl⟩ := h
    exact ⟨b, hb, rfl⟩
  · exact ⟨b, hb, he⟩

theorem first_pass_section_watchers {ini : Ini} {genv lenv : StrEnv}
    {acc : FirstPassAcc} {sec : IniSection} {acc' : FirstPassAcc}
    (h : first_pass_section ini genv lenv acc sec = some acc') :
    acc'.watchers = acc.watchers ∨
      (pyStartswith sec.name "watcher:" = true ∧ ∃ b,
        dgetBool ini genv sec.name "copy_env" false = some b ∧
        acc'.watchers = acc.watchers ++ [(sec.name, watcherInit sec.name b genv lenv)]) := by
  simp only [first_pass_section] at h
  split at h
  · simp only [Option.some.injEq] at h
    subst h
    exact Or.inl rfl
  · simp only [Option.bind_eq_bind', Option.bind_eq_some] at h
    obtain ⟨a1, h1, a2, h2, h3⟩ := h
    have e1 := socket_step_watchers h1
    have e2 := plugin_step_watchers h2
    rcases watcher_step_watchers h3 with he | ⟨hs, b, hb, he⟩
    · exact Or.inl (by rw [he, e2, e1])
    · exact Or.inr ⟨hs, b, hb, by rw [he, e2, e1]⟩

theorem first_pass_section_of_starts {ini : Ini} {genv lenv : StrEnv}
    {acc : FirstPassAcc} {sec : IniSection} {acc' : FirstPassAcc}
    (h : first_pass_section ini genv lenv acc sec = some acc')
    (hs : pyStartswith sec.name "watcher:" = true)
    (hskip : ((itemsRepl ini genv sec.name).isEmpty ||
      (itemsRepl ini genv sec.name).map Prod.fst = ["__name__"]) = false) :
    ∃ b, dgetBool ini genv sec.name "copy_env" false = some b ∧
      acc'.watchers = acc.watchers ++ [(sec.name, watcherInit sec.name b genv lenv)] := by
  simp only [first_pass_section] at h
  rw [hskip] at h
  simp only [Bool.false_eq_true, if_false, Option.bind_eq_bind', Option.bind_eq_some] at h
  obtain ⟨a1, h1, a2, h2, h3⟩ := h
  have e1 := socket_step_watchers h1
  have e2 := plugin_step_watchers h2
  obtain ⟨b, hb, he⟩ := watcher_step_of_starts h3 hs
  exact ⟨b, hb, by rw [he, e2, e1]⟩

theorem foldlM_first_pass_mono (ini : Ini) (genv lenv : StrEnv) :
    ∀ (secs : List IniSection) (acc fp : FirstPassAcc),
      List.foldlM (first_pass_section ini genv lenv) acc secs = some fp →
      ∀ pr ∈ acc.watchers, pr ∈ fp.watchers := by
  intro secs
  induction secs with
  | nil =>
    intro acc fp h pr hpr
    simp only [List.foldlM_nil, Option.pure_def, Option.some.injEq] at h
    subst h
    exact hpr
  | cons s ss ih =>
    intro acc fp h pr hpr
    simp only [List.foldlM_cons, Option.bind_eq_bind', Option.bind_eq_some] at h
    obtain ⟨a1, h1, h2⟩ := h
    apply ih a1 fp h2 pr
    rcases first_pass_section_watchers h1 with he | ⟨_, b, _, he⟩
    · rw [he]; exact hpr
    · rw [he]; exact List.mem_append_left _ hpr

theorem foldlM_first_pass_inv (ini : Ini) (genv lenv : StrEnv) :
    ∀ (secs : List IniSection) (acc fp : FirstPassAcc),
      List.foldlM (first_pass_section ini genv lenv) acc secs = some fp →
      ∀ pr ∈ fp.watchers,
        pr ∈ acc.watchers ∨ ∃ sec, sec ∈ secs ∧ pyStartswith sec.name "watcher:" = true ∧
          ∃ b, dgetBool ini genv sec.name "copy_env" false = some b ∧
            pr = (sec.name, watcherInit sec.name b genv lenv) := by
  intro secs
  induction secs with
  | nil =>
    intro acc fp h pr hpr
    simp only [List.foldlM_nil, Option.pure_def, Option.some.injEq] at h
    subst h
    exact Or.inl hpr
  | cons s ss ih =>
    intro acc fp h pr hpr
    simp only [List.foldlM_cons, Option.bind_eq_bind', Option.bind_eq_some] at h
    obtain ⟨a1, h1, h2⟩ := h
    rcases ih a1 fp h2 pr hpr with hin | ⟨sec, hsec, hsw, b, hb, hpr'⟩
    · rcases first_pass_section_watchers h1 with he | ⟨hs, b, hb, he⟩
      · rw [he] at hin
        exact Or.inl hin
      · rw [he] at hin
        rcases List.mem_append.mp hin with hin | hin
        · exact Or.inl hin
        · simp only [List.mem_singleton] at hin
          exact Or.inr ⟨s, by simp, hs, b, hb, hin⟩
    · exact Or.inr ⟨sec, by simp [hsec], hsw, b, hb, hpr'⟩

theorem foldlM_first_pass_of (ini : Ini) (genv lenv : StrEnv) :
    ∀ (secs : List IniSection) (acc fp : FirstPassAcc),
      List.foldlM (first_pass_section ini genv lenv) acc secs = some fp →
      ∀ sec ∈ secs, pyStartswith sec.name "watcher:" = true →
        ((itemsRepl ini genv sec.name).isEmpty ||
          (itemsRepl ini genv sec.name).map Prod.fst = ["__name__"]) = false →
        ∃ b, dgetBool ini genv sec.name "copy_env" false = some b ∧
          (sec.name, watcherInit sec.name b genv lenv) ∈ fp.watchers := by
  intro secs
  induction secs with
  | nil => intro acc fp _ sec hsec; simp at hsec
  | cons s ss ih =>
    intro acc fp h sec hsec hsw hskip
    simp only [List.foldlM_cons, Option.bind_eq_bind', Option.bind_eq_some] at h
    obtain ⟨a1, h1, h2⟩ := h
    rcases List.mem_cons.mp hsec with rfl | hmem
    · obtain ⟨b, hb, he⟩ := first_pass_section_of_starts h1 hsw hskip
      refine ⟨b, hb, ?_⟩
      apply foldlM_first_pass_mono ini genv lenv ss a1 fp h2
      rw [he]
      exact List.mem_append_right _ (by simp)
    · exact ih a1 fp h2 sec hmem hsw hskip

/-! ## Lemmas: second-pass membership -/

theorem second_pass_step_inv {ini : Ini} {genv : StrEnv}
    {acc acc' : List (String × Dict) × List Warning} {pr : String × Dict}
    (h : second_pass_step ini genv acc pr = some acc') :
    ∃ r, second_pass_watcher ini genv pr = some r ∧
      acc' = (acc.1 ++ [(pr.1, r.1)], acc.2 ++ r.2) := by
  unfold second_pass_step at h
  simp only [Option.bind_eq_bind', Option.bind_eq_some, Option.pure_def, Option.some.injEq] at h
  obtain ⟨r, hr, rfl⟩ := h
  exact ⟨r, hr, rfl⟩

theorem foldlM_second_mono (ini : Ini) (genv : StrEnv) :
    ∀ (prs : List (String × Dict)) (acc res : List (String × Dict) × List Warning),
      List.foldlM (second_pass_step ini genv) acc prs = some res →
      ∀ q ∈ acc.1, q ∈ res.1 := by
  intro prs
  induction prs with
  | nil =>
    intro acc res h q hq
    simp only [List.foldlM_nil, Option.pure_def, Option.some.injEq] at h
    subst h
    exact hq
  | cons p ps ih =>
    intro acc res h q hq
    simp only [List.foldlM_cons, Option.bind_eq_bind', Option.bind_eq_some] at h
    obtain ⟨a1, h1, h2⟩ := h
    obtain ⟨r, _, rfl⟩ := second_pass_step_inv h1
    exact ih _ res h2 q (List.mem_append_left _ hq)

theorem foldlM_second_inv (ini : Ini) (genv : StrEnv) :
    ∀ (prs : List (String × Dict)) (acc res : List (String × Dict) × List Warning),
      List.foldlM (second_pass_step ini genv) acc prs = some res →
      ∀ q ∈ res.1, q ∈ acc.1 ∨ ∃ pr, pr ∈ prs ∧ q.1 = pr.1 ∧
        ∃ warns, second_pass_watcher ini genv pr = some (q.2, warns) := by
  intro prs
  induction prs with
  | nil =>
    intro acc res h q hq
    simp only [List.foldlM_nil, Option.pure_def, Option.some.injEq] at h
    subst h
    exact Or.inl hq
  | cons p ps ih =>
    intro acc res h q hq
    simp only [List.foldlM_cons, Option.bind_eq_bind', Option.bind_eq_some] at h
    obtain ⟨a1, h1, h2⟩ := h
    obtain ⟨r, hr, rfl⟩ := second_pass_step_inv h1
    rcases ih _ res h2 q hq with hin | ⟨pr, hpr, hq1, warns, hw⟩
    · rcases List.mem_append.mp hin with hin | hin
      · exact Or.inl hin
      · simp only [List.mem_singleton] at hin
        subst hin
        exact Or.inr ⟨p, by simp, rfl, r.2, by simpa using hr⟩
    · exact Or.inr ⟨pr, by simp [hpr], hq1, warns, hw⟩

theorem foldlM_second_of (ini : Ini) (genv : StrEnv) :
    ∀ (prs : List (String × Dict)) (acc res : List (String × Dict) × List Warning),
      List.foldlM (second_pass_step ini genv) acc prs = some res →
      ∀ pr ∈ prs, ∃ r, second_pass_watcher ini genv pr = some r ∧ (pr.1, r.1) ∈ res.1 := by
  intro prs
  induction prs with
  | nil => intro acc res _ pr hpr; simp at hpr
  | cons p ps ih =>
    intro acc res h pr hpr
    simp only [List.foldlM_cons, Option.bind_eq_bind', Option.bind_eq_some] at h
    obtain ⟨a1, h1, h2⟩ := h
    rcases List.mem_cons.mp hpr with rfl | hmem
    · obtain ⟨r, hr, rfl⟩ := second_pass_step_inv h1
      refine ⟨r, hr, ?_⟩
      exact foldlM_second_mono ini genv ps _ res h2 _ (List.mem_append_right _ (by simp))
    · exact ih a1 res h2 pr hmem

theorem second_pass_inv {ini : Ini} {genv : StrEnv} {prs out : List (String × Dict)}
    {ws : List Warning} (h : second_pass ini genv prs = some (out, ws)) :
    ∀ q ∈ out, ∃ pr, pr ∈ prs ∧ q.1 = pr.1 ∧
      ∃ warns, second_pass_watcher ini genv pr = some (q.2, warns) := by
  unfold second_pass at h
  split at h
  · cases h
  · intro q hq
    rcases foldlM_second_inv ini genv prs ([], []) (out, ws) h q hq with hin | hfound
    · simp at hin
    · exact hfound

theorem second_pass_of {ini : Ini} {genv : StrEnv} {prs out : List (String × Dict)}
    {ws : List Warning} (h : second_pass ini genv prs = some (out, ws)) :
    ∀ pr ∈ prs, ∃ r, second_pass_watcher ini genv pr = some r ∧ (pr.1, r.1) ∈ out :=
  fun pr hpr => by
    unfold second_pass at h
    split at h
    · cases h
    · exact foldlM_second_of ini genv prs ([], []) (out, ws) h pr hpr

/-! ## Lemmas: inversion of one watcher-option step -/

theorem optAssignStr_inv {w : Dict} {warns : List Warning} {key val : String}
    {w' : Dict} {warns' : List Warning}
    (h : optAssignStr w warns key val = some (w', warns')) :
    w' = dset w key (PyVal.str val) ∧ warns' = warns := by
  simp only [optAssignStr, Option.some.injEq, Prod.mk.injEq] at h
  exact ⟨h.1.symm, h.2.symm⟩

theorem optInt_inv {w : Dict} {warns : List Warning} {key val : String}
    {w' : Dict} {warns' : List Warning}
    (h : optInt w warns key val = some (w', warns')) :
    ∃ n, w' = dset w key (PyVal.int n) ∧ warns' = warns := by
  simp only [optInt, Option.map_eq_some', Prod.mk.injEq] at h
  obtain ⟨n, _, hn⟩ := h
  exact ⟨n, hn.1.symm, hn.2.symm⟩

theorem optBool_inv {w : Dict} {warns : List Warning} {key val : String}
    {w' : Dict} {warns' : List Warning}
    (h : optBool w warns key val = some (w', warns')) :
    ∃ b, w' = dset w key (PyVal.bool b) ∧ warns' = warns := by
  simp only [optBool, Option.map_eq_some', Prod.mk.injEq] at h
  obtain ⟨b, _, hb⟩ := h
  exact ⟨b, hb.1.symm, hb.2.symm⟩

theorem optSignal_inv {w : Dict} {warns : List Warning} {val : String}
    {w' : Dict} {warns' : List Warning}
    (h : optSignal w warns val = some (w', warns')) :
    ∃ n, w' = dset w "stop_signal" (PyVal.int n) ∧ warns' = warns := by
  simp only [optSignal, Option.map_eq_some', Prod.mk.injEq] at h
  obtain ⟨n, _, hn⟩ := h
  exact ⟨n, hn.1.symm, hn.2.symm⟩

theorem optStream_inv {w : Dict} {warns : List Warning} {opt val : String}
    {w' : Dict} {warns' : List Warning}
    (h : optStream w warns opt val = some (w', warns')) :
    ∃ q, pySplitOnce opt '.' = some q ∧ ∃ sv, w' = dset w q.1 sv ∧ warns' = warns := by
  unfold optStream at h
  split at h
  · rename_i q hq
    split at h
    · simp only [Option.some.injEq, Prod.mk.injEq] at h
      exact ⟨q, hq, _, h.1.symm, h.2.symm⟩
    · cases h
  · cases h

theorem optRlimit_inv {w : Dict} {warns : List Warning} {opt val : String}
    {w' : Dict} {warns' : List Warning}
    (h : optRlimit w warns opt val = some (w', warns')) :
    ∃ rd n, dlookup w "rlimits" = some (PyVal.dict rd) ∧ rlimit_value val = some n ∧
      w' = dset w "rlimits" (PyVal.dict (dset rd (pyDrop opt 7) (PyVal.int n))) ∧
      warns' = warns := by
  unfold optRlimit at h
  split at h
  · rename_i rd hrd
    simp only [Option.map_eq_some', Prod.mk.injEq] at h
    obtain ⟨n, hn, he⟩ := h
    exact ⟨rd, n, hrd, hn, he.1.symm, he.2.symm⟩
  · cases h

theorem optUsePapa_inv {w : Dict} {warns : List Warning} {val : String}
    {w' : Dict} {warns' : List Warning}
    (h : optUsePapa w warns val = some (w', warns')) :
    (∃ pv, w' = dset w "use_papa" pv ∧ warns' = warns) ∨ w' = w := by
  unfold optUsePapa at h
  simp only [Option.bind_eq_bind', Option.bind_eq_some] at h
  obtain ⟨b, _, hb⟩ := h
  split at hb
  · rw [show papaAvailable = false from rfl] at hb
    simp only [Bool.false_eq_true, if_false, Option.some.injEq, Prod.mk.injEq] at hb
    exact Or.inr hb.1.symm
  · simp only [Option.some.injEq, Prod.mk.injEq] at hb
    exact Or.inl ⟨_, hb.1.symm, hb.2.symm⟩

theorem optHooks_inv {w : Dict} {warns : List Warning} {opt val : String}
    {w' : Dict} {warns' : List Warning}
    (h : optHooks w warns opt val = some (w', warns')) :
    ∃ hv, w' = dset w "hooks" hv ∧ warns' = warns := by
  unfold optHooks at h
  split at h
  · split at h
    · simp only [Option.some.injEq, Prod.mk.injEq] at h
      exact ⟨_, h.1.symm, h.2.symm⟩
    · simp only [Option.map_eq_some', Prod.mk.injEq] at h
      obtain ⟨bl, _, he⟩ := h
      exact ⟨_, he.1.symm, he.2.symm⟩
  · cases h

/-- Inversion of one step of the watcher option loop. -/
theorem applyWatcherOption_inv {wenv : StrEnv} {w : Dict} {warns : List Warning}
    {opt v : String} {w' : Dict} {warns' : List Warning}
    (h : applyWatcherOption wenv (w, warns) (opt, v) = some (w', warns')) :
    (pyStartswith opt "rlimit_" = false ∧ ∃ pv, w' = dset w opt pv ∧ warns' = warns) ∨
    (opt = "use_papa" ∧ w' = w) ∨
    ((pyStartswith opt "stderr_stream" = true ∨ pyStartswith opt "stdout_stream" = true) ∧
      ∃ q, pySplitOnce opt '.' = some q ∧ ∃ sv, w' = dset w q.1 sv ∧ warns' = warns) ∨
    (pyStartswith opt "rlimit_" = true ∧ ∃ rd n,
      dlookup w "rlimits" = some (PyVal.dict rd) ∧
      rlimit_value (replace_gnu_args v wenv) = some n ∧
      w' = dset w "rlimits" (PyVal.dict (dset rd (pyDrop opt 7) (PyVal.int n))) ∧
      warns' = warns) ∨
    (pyStartswith opt "hooks." = true ∧ ∃ hv, w' = dset w "hooks" hv ∧ warns' = warns) := by
  unfold applyWatcherOption at h
  by_cases c1 : (opt = "cmd" || opt = "args" || opt = "working_dir" || opt = "uid" ||
      opt = "gid") = true
  · rw [if_pos c1] at h
    obtain ⟨he, hw⟩ := optAssignStr_inv h
    simp only [Bool.or_eq_true, decide_eq_true_eq, or_assoc] at c1
    have hrl : pyStartswith opt "rlimit_" = false := by
      rcases c1 with rfl | rfl | rfl | rfl | rfl <;> decide
    exact Or.inl ⟨hrl, _, he, hw⟩
  · rw [if_neg c1] at h
    by_cases c2 : opt = "numprocesses"
    · rw [if_pos c2] at h
      obtain ⟨n, he, hw⟩ := optInt_inv h
      subst c2
      exact Or.inl ⟨by decide, _, he, hw⟩
    · rw [if_neg c2] at h
      by_cases c3 : opt = "warmup_delay"
      · rw [if_pos c3] at h
        obtain ⟨n, he, hw⟩ := optInt_inv h
        subst c3
        exact Or.inl ⟨by decide, _, he, hw⟩
      · rw [if_neg c3] at h
        by_cases c4 : opt = "executable"
        · rw [if_pos c4] at h
          obtain ⟨he, hw⟩ := optAssignStr_inv h
          subst c4
          exact Or.inl ⟨by decide, _, he, hw⟩
        · rw [if_neg c4] at h
          by_cases c5 : (opt = "shell" || opt = "send_hup" || opt = "stop_children" ||
              opt = "close_child_stderr" || opt = "use_sockets" || opt = "singleton" ||
              opt = "copy_env" || opt = "copy_path" || opt = "close_child_stdout") = true
          · rw [if_pos c5] at h
            obtain ⟨b, he, hw⟩ := optBool_inv h
            simp only [Bool.or_eq_true, decide_eq_true_eq, or_assoc] at c5
            have hrl : pyStartswith opt "rlimit_" = false := by
              rcases c5 with rfl | rfl | rfl | rfl | rfl | rfl | rfl | rfl | rfl <;> decide
            exact Or.inl ⟨hrl, _, he, hw⟩
          · rw [if_neg c5] at h
            by_cases c6 : opt = "stop_signal"
            · rw [if_pos c6] at h
              obtain ⟨n, he, hw⟩ := optSignal_inv h
              subst c6
              exact Or.inl ⟨by decide, _, he, hw⟩
            · rw [if_neg c6] at h
              by_cases c7 : opt = "max_retry"
              · rw [if_pos c7] at h
                obtain ⟨n, he, hw⟩ := optInt_inv h
                subst c7
                exact Or.inl ⟨by decide, _, he, hw⟩
              · rw [if_neg c7] at h
                by_cases c8 : opt = "graceful_timeout"
                · rw [if_pos c8] at h
                  obtain ⟨n, he, hw⟩ := optInt_inv h
                  subst c8
                  exact Or.inl ⟨by decide, _, he, hw⟩
                · rw [if_neg c8] at h
                  by_cases c9 : (pyStartswith opt "stderr_stream" ||
                      pyStartswith opt "stdout_stream") = true
                  · rw [if_pos c9] at h
                    obtain ⟨q, hq, sv, he, hw⟩ := optStream_inv h
                    simp only [Bool.or_eq_true] at c9
                    exact Or.inr (Or.inr (Or.inl ⟨c9, q, hq, sv, he, hw⟩))
                  · rw [if_neg c9] at h
                    by_cases c10 : pyStartswith opt "rlimit_" = true
                    · rw [if_pos c10] at h
                      obtain ⟨rd, n, hrd, hn, he, hw⟩ := optRlimit_inv h
                      exact Or.inr (Or.inr (Or.inr (Or.inl
                        ⟨c10, rd, n, hrd, hn, he, hw⟩)))
                    · rw [if_neg c10] at h
                      by_cases c11 : opt = "priority"
                      · rw [if_pos c11] at h
                        obtain ⟨n, he, hw⟩ := optInt_inv h
                        subst c11
                        exact Or.inl ⟨by decide, _, he, hw⟩
                      · rw [if_neg c11] at h
                        by_cases c12 : opt = "use_papa"
                        · rw [if_pos c12] at h
                          rcases optUsePapa_inv h with ⟨pv, he, hw⟩ | he
                          · subst c12
                            exact Or.inl ⟨by decide, _, he, hw⟩
                          · exact Or.inr (Or.inl ⟨c12, he⟩)
                        · rw [if_neg c12] at h
                          by_cases c13 : pyStartswith opt "hooks." = true
                          · rw [if_pos c13] at h
                            obtain ⟨hv, he, hw⟩ := optHooks_inv h
                            exact Or.inr (Or.inr (Or.inr (Or.inr ⟨c13, hv, he, hw⟩)))
                          · rw [if_neg c13] at h
                            by_cases c14 : (opt = "check_flapping" || opt = "respawn" ||
                                opt = "autostart" || opt = "close_child_stdin") = true
                            · rw [if_pos c14] at h
                              obtain ⟨b, he, hw⟩ := optBool_inv h
                              simp only [Bool.or_eq_true, decide_eq_true_eq, or_assoc] at c14
                              have hrl : pyStartswith opt "rlimit_" = false := by
                                rcases c14 with rfl | rfl | rfl | rfl <;> decide
                              exact Or.inl ⟨hrl, _, he, hw⟩
                            · rw [if_neg c14] at h
                              obtain ⟨he, hw⟩ := optAssignStr_inv h
                              have hrl : pyStartswith opt "rlimit_" = false := by
                                simpa using c10
                              exact Or.inl ⟨hrl, _, he, hw⟩

/-! ## Lemmas: preservation across watcher-option steps -/

theorem listLeads_takeWhile (c : Char) :
    ∀ (p l : List Char), listLeads p l = true → (∀ a ∈ p, a ≠ c) →
      listLeads p (l.takeWhile (fun a => a ≠ c)) = true := by
  intro p
  induction p with
  | nil => intro l _ _; rfl
  | cons a ps ih =>
    intro l h hp
    cases l with
    | nil => simp [listLeads] at h
    | cons b bs =>
      simp only [listLeads, Bool.and_eq_true, decide_eq_true_eq] at h
      have hane : a ≠ c := hp a (by simp)
      have hbne : b ≠ c := h.1 ▸ hane
      rw [List.takeWhile_cons, if_pos (by simp [hbne])]
      simp only [listLeads, Bool.and_eq_true, decide_eq_true_eq]
      exact ⟨h.1, ih bs h.2 (fun x hx => hp x (by simp [hx]))⟩

theorem pySplitOnce_fst {s : String} {c : Char} {q : String × String}
    (h : pySplitOnce s c = some q) :
    q.1.data = s.data.takeWhile (fun a => a ≠ c) := by
  simp only [pySplitOnce, splitOnceList, Option.map_eq_some'] at h
  obtain ⟨pr, hpr, hq⟩ := h
  cases hd : s.data.drop (s.data.takeWhile (fun a => a ≠ c)).length with
  | nil => rw [hd] at hpr; cases hpr
  | cons x xs =>
    rw [hd] at hpr
    cases hpr
    subst hq
    rfl

theorem startswith_splitOnce_fst {s p : String} {q : String × String}
    (hs : pyStartswith s p = true) (hp : ∀ a ∈ p.data, a ≠ '.')
    (h : pySplitOnce s '.' = some q) : pyStartswith q.1 p = true := by
  have h1 := pySplitOnce_fst h
  unfold pyStartswith
  rw [h1]
  exact listLeads_takeWhile '.' p.data s.data hs hp

theorem pyDrop_append (p r : String) : pyDrop (p ++ r) p.data.length = r := by
  unfold pyDrop
  rw [strData_append, List.drop_left]

theorem applyWatcherOption_preserves {wenv : StrEnv} {w : Dict} {warns : List Warning}
    {opt v : String} {w' : Dict} {warns' : List Warning} {k : String}
    (h : applyWatcherOption wenv (w, warns) (opt, v) = some (w', warns'))
    (hk : opt ≠ k) (hk1 : k ≠ "rlimits") (hk2 : k ≠ "hooks")
    (hk3 : pyStartswith k "stderr_stream" = false)
    (hk4 : pyStartswith k "stdout_stream" = false) :
    dlookup w' k = dlookup w k := by
  rcases applyWatcherOption_inv h with ⟨_, pv, rfl, _⟩ | ⟨_, rfl⟩ |
    ⟨hsw, q, hq, sv, rfl, _⟩ | ⟨_, rd, n, _, _, rfl, _⟩ | ⟨_, hv, rfl, _⟩
  · rw [dlookup_dset, if_neg hk]
  · rfl
  · have hq1 : ¬ (q.1 = k) := by
      intro he
      rcases hsw with hsw | hsw
      · have hst := startswith_splitOnce_fst hsw (by decide) hq
        rw [he] at hst
        rw [hst] at hk3
        cases hk3
      · have hst := startswith_splitOnce_fst hsw (by decide) hq
        rw [he] at hst
        rw [hst] at hk4
        cases hk4
    rw [dlookup_dset, if_neg hq1]
  · rw [dlookup_dset, if_neg (fun he => hk1 he.symm)]
  · rw [dlookup_dset, if_neg (fun he => hk2 he.symm)]

theorem applyWatcherOption_rlimit_set {wenv : StrEnv} {w : Dict} {warns : List Warning}
    {lim v : String} {w' : Dict} {warns' : List Warning}
    (h : applyWatcherOption wenv (w, warns) ("rlimit_" ++ lim, v) = some (w', warns')) :
    ∃ rd n, dlookup w "rlimits" = some (PyVal.dict rd) ∧
      rlimit_value (replace_gnu_args v wenv) = some n ∧
      w' = dset w "rlimits" (PyVal.dict (dset rd lim (PyVal.int n))) := by
  have hbase : pyStartswith ("rlimit_" ++ lim) "rlimit_" = true :=
    pyStartswith_append_self _ _
  rcases applyWatcherOption_inv h with ⟨hrl, _⟩ | ⟨hc, _⟩ | ⟨hsw, _⟩ |
    ⟨_, rd, n, hrd, hn, rfl, _⟩ | ⟨hh, _⟩
  · rw [hbase] at hrl; cases hrl
  · exact absurd hc (append_ne_of_not_startswith (by decide) lim)
  · exfalso
    rcases hsw with hsw | hsw
    · exact absurd (startswith_of_both hbase hsw (by decide)) (by decide)
    · exact absurd (startswith_of_both hbase hsw (by decide)) (by decide)
  · refine ⟨rd, n, hrd, hn, ?_⟩
    have hdrop : pyDrop ("rlimit_" ++ lim) 7 = lim := pyDrop_append "rlimit_" lim
    rw [hdrop]
  · exact absurd (startswith_of_both hh hbase (by decide)) (by decide)

theorem applyWatcherOption_rlimits_entry {wenv : StrEnv} {w : Dict}
    {warns : List Warning} {opt v : String} {w' : Dict} {warns' : List Warning}
    {lim : String} {x : PyVal}
    (h : applyWatcherOption wenv (w, warns) (opt, v) = some (w', warns'))
    (hne : opt ≠ "rlimit_" ++ lim) (hnr : opt ≠ "rlimits")
    {rd : Dict} (hrd : dlookup w "rlimits" = some (PyVal.dict rd))
    (hx : dlookup rd lim = some x) :
    ∃ rd', dlookup w' "rlimits" = some (PyVal.dict rd') ∧ dlookup rd' lim = some x := by
  rcases applyWatcherOption_inv h with ⟨_, pv, rfl, _⟩ | ⟨_, rfl⟩ |
    ⟨hsw, q, hq, sv, rfl, _⟩ | ⟨hrl, rd2, n, hrd2, hn, rfl, _⟩ | ⟨_, hv, rfl, _⟩
  · exact ⟨rd, by rw [dlookup_dset, if_neg hnr]; exact hrd, hx⟩
  · exact ⟨rd, hrd, hx⟩
  · have hq1 : ¬ (q.1 = "rlimits") := by
      intro he
      rcases hsw with hsw | hsw
      · have hst := startswith_splitOnce_fst hsw (by decide) hq
        rw [he] at hst
        exact absurd hst (by decide)
      · have hst := startswith_splitOnce_fst hsw (by decide) hq
        rw [he] at hst
        exact absurd hst (by decide)
    exact ⟨rd, by rw [dlookup_dset, if_neg hq1]; exact hrd, hx⟩
  · rw [hrd] at hrd2
    have hrdeq : rd2 = rd := by cases hrd2; rfl
    subst hrdeq
    refine ⟨dset rd2 (pyDrop opt 7) (PyVal.int n), ?_, ?_⟩
    · rw [dlookup_dset, if_pos rfl]
    · rw [dlookup_dset, if_neg ?_]
      · exact hx
      · intro he
        apply hne
        have hrec := eq_append_drop_of_startswith hrl
        rw [show (("rlimit_" : String).data.length) = 7 from rfl] at hrec
        rw [he] at hrec
        exact hrec
  · exact ⟨rd, by rw [dlookup_dset, if_neg (by decide)]; exact hrd, hx⟩

theorem foldlM_apply_preserves (wenv : StrEnv) (k : String)
    (hk1 : k ≠ "rlimits") (hk2 : k ≠ "hooks")
    (hk3 : pyStartswith k "stderr_stream" = false)
    (hk4 : pyStartswith k "stdout_stream" = false) :
    ∀ (opts : List (String × String)) (st st' : Dict × List Warning),
      List.foldlM (applyWatcherOption wenv) st opts = some st' →
      (∀ p ∈ opts, p.1 ≠ k) →
      dlookup st'.1 k = dlookup st.1 k := by
  intro opts
  induction opts with
  | nil =>
    intro st st' h _
    simp only [List.foldlM_nil, Option.pure_def, Option.some.injEq] at h
    subst h
    rfl
  | cons p ps ih =>
    intro st st' h hne
    simp only [List.foldlM_cons, Option.bind_eq_bind', Option.bind_eq_some] at h
    obtain ⟨st1, h1, h2⟩ := h
    obtain ⟨w, warns⟩ := st
    obtain ⟨w1, warns1⟩ := st1
    obtain ⟨opt, v⟩ := p
    rw [ih _ _ h2 (fun q hq => hne q (by simp [hq]))]
    exact applyWatcherOption_preserves h1 (hne (opt, v) (by simp)) hk1 hk2 hk3 hk4

theorem foldlM_apply_rlimits_entry (wenv : StrEnv) (lim : String) (x : PyVal) :
    ∀ (opts : List (String × String)) (st st' : Dict × List Warning),
      List.foldlM (applyWatcherOption wenv) st opts = some st' →
      (∀ p ∈ opts, p.1 ≠ "rlimit_" ++ lim ∧ p.1 ≠ "rlimits") →
      ∀ rd, dlookup st.1 "rlimits" = some (PyVal.dict rd) → dlookup rd lim = some x →
      ∃ rd', dlookup st'.1 "rlimits" = some (PyVal.dict rd') ∧
        dlookup rd' lim = some x := by
  intro opts
  induction opts with
  | nil =>
    intro st st' h _ rd hrd hx
    simp only [List.foldlM_nil, Option.pure_def, Option.some.injEq] at h
    subst h
    exact ⟨rd, hrd, hx⟩
  | cons p ps ih =>
    intro st st' h hne rd hrd hx
    simp only [List.foldlM_cons, Option.bind_eq_bind', Option.bind_eq_some] at h
    obtain ⟨st1, h1, h2⟩ := h
    obtain ⟨w, warns⟩ := st
    obtain ⟨w1, warns1⟩ := st1
    obtain ⟨opt, v⟩ := p
    obtain ⟨rd1, hrd1, hx1⟩ := applyWatcherOption_rlimits_entry h1
      (hne (opt, v) (by simp)).1 (hne (opt, v) (by simp)).2 hrd hx
    exact ih _ _ h2 (fun q hq => hne q (by simp [hq])) rd1 hrd1 hx1

theorem foldlM_apply_rlimit_found (wenv : StrEnv) (lim : String) :
    ∀ (opts : List (String × String)) (st st' : Dict × List Warning),
      List.foldlM (applyWatcherOption wenv) st opts = some st' →
      ("rlimit_" ++ lim, "-1") ∈ opts →
      (opts.map Prod.fst).Nodup →
      "rlimits" ∉ opts.map Prod.fst →
      ∃ rd', dlookup st'.1 "rlimits" = some (PyVal.dict rd') ∧
        dlookup rd' lim = some (PyVal.int RLIM_INFINITY) := by
  intro opts
  induction opts with
  | nil => intro st st' _ hm; simp at hm
  | cons p ps ih =>
    intro st st' h hm hnd hnr
    simp only [List.foldlM_cons, Option.bind_eq_bind', Option.bind_eq_some] at h
    obtain ⟨st1, h1, h2⟩ := h
    simp only [List.map_cons, List.nodup_cons] at hnd
    simp only [List.map_cons, List.mem_cons, not_or] at hnr
    rcases List.mem_cons.mp hm with he | hm
    · obtain ⟨w, warns⟩ := st
      obtain ⟨w1, warns1⟩ := st1
      rw [← he] at h1
      obtain ⟨rd, n, hrd, hn, hw1⟩ := applyWatcherOption_rlimit_set h1
      have hrga : replace_gnu_args "-1" wenv = "-1" :=
        replace_gnu_args_no_dollar _ _ (by decide)
      rw [hrga] at hn
      have hval : rlimit_value "-1" = some (-1) := by decide
      rw [hval] at hn
      have hneq : n = -1 := by cases hn; rfl
      subst hneq
      subst hw1
      have hentry : dlookup (dset w "rlimits" (PyVal.dict (dset rd lim (PyVal.int (-1)))))
          "rlimits" = some (PyVal.dict (dset rd lim (PyVal.int (-1)))) := by
        rw [dlookup_dset, if_pos rfl]
      have hx : dlookup (dset rd lim (PyVal.int (-1))) lim = some (PyVal.int (-1)) := by
        rw [dlookup_dset, if_pos rfl]
      have hkey : ("rlimit_" ++ lim) ∉ ps.map Prod.fst := by
        have : p.1 = "rlimit_" ++ lim := by rw [← he]
        rw [← this]
        exact hnd.1
      exact foldlM_apply_rlimits_entry wenv lim (PyVal.int (-1)) ps _ _ h2
        (fun q hq => ⟨fun hh => hkey (hh ▸ List.mem_map.mpr ⟨q, hq, rfl⟩),
          fun hh => hnr.2 (hh ▸ List.mem_map.mpr ⟨q, hq, rfl⟩)⟩)
        _ hentry hx
    · exact ih st1 st' h2 hm hnd.2 hnr.2

/-! ## Lemmas: section lookup under well-formedness, and `dget` defaults -/

theorem findSection_of_mem {ini : Ini} {sec : IniSection}
    (hnd : (ini.sections.map IniSection.name).Nodup) (hmem : sec ∈ ini.sections) :
    ini.findSection sec.name = some sec := by
  unfold Ini.findSection
  have aux : ∀ (l : List IniSection), (l.map IniSection.name).Nodup → sec ∈ l →
      l.find? (fun s => s.name = sec.name) = some sec := by
    intro l
    induction l with
    | nil => intro _ hm; simp at hm
    | cons s ss ih =>
      intro hnd hm
      simp only [List.map_cons, List.nodup_cons] at hnd
      rcases List.mem_cons.mp hm with rfl | hm
      · rw [List.find?_cons_of_pos]
        simp
      · have hne : ¬ (s.name = sec.name) := by
          intro he
          exact hnd.1 (he ▸ List.mem_map.mpr ⟨sec, hm, rfl⟩)
        rw [List.find?_cons_of_neg]
        · exact ih hnd.2 hm
        · simp [hne]
  exact aux ini.sections hnd hmem

theorem itemsRaw_of_mem {ini : Ini} {sec : IniSection}
    (hnd : (ini.sections.map IniSection.name).Nodup) (hmem : sec ∈ ini.sections) :
    itemsRaw ini sec.name = sec.options := by
  unfold itemsRaw
  rw [findSection_of_mem hnd hmem]
  rfl

theorem itemsRepl_of_mem {ini : Ini} {sec : IniSection} (env : StrEnv)
    (hnd : (ini.sections.map IniSection.name).Nodup) (hmem : sec ∈ ini.sections) :
    itemsRepl ini env sec.name =
      sec.options.map (fun p => (p.1, replace_gnu_args p.2 env)) := by
  unfold itemsRepl
  rw [findSection_of_mem hnd hmem]
  rfl

theorem contains_true_iff {α : Type} [BEq α] [LawfulBEq α] (l : List α) (a : α) :
    l.contains a = true ↔ a ∈ l := List.elem_iff

theorem cfgGet_none_of_hasOption_false {ini : Ini} {env : StrEnv} {sec opt : String}
    (h : hasOption ini sec opt = false) : cfgGet ini env sec opt = Option.none := by
  unfold cfgGet getRaw
  unfold hasOption at h
  cases hf : ini.findSection sec with
  | none => simp [hf]
  | some s =>
    rw [hf] at h
    simp only [] at h
    have : envLookup s.options opt = Option.none := by
      rw [envLookup_eq_none_iff]
      intro hmem
      rw [(contains_true_iff _ _).mpr hmem] at h
      cases h
    simp [hf, this]

theorem cfgGet_isSome_of_hasOption {ini : Ini} {env : StrEnv} {sec opt : String}
    (h : hasOption ini sec opt = true) : ∃ v, cfgGet ini env sec opt = some v := by
  unfold cfgGet getRaw
  unfold hasOption at h
  cases hf : ini.findSection sec with
  | none => rw [hf] at h; cases h
  | some s =>
    rw [hf] at h
    simp only [] at h
    have hmem := (contains_true_iff _ _).mp h
    have := (envLookup_isSome_iff s.options opt).mpr hmem
    cases hv : envLookup s.options opt with
    | none => rw [hv] at this; cases this
    | some v => exact ⟨replace_gnu_args v env, by simp [hf, hv]⟩

theorem dgetFloat_of_absent {ini : Ini} {env : StrEnv} {sec opt : String} {d : Rat}
    (h : hasOption ini sec opt = false) : dgetFloat ini env sec opt d = some d := by
  unfold dgetFloat
  rw [cfgGet_none_of_hasOption_false h]

theorem dgetBool_of_absent {ini : Ini} {env : StrEnv} {sec opt : String} {d : Bool}
    (h : hasOption ini sec opt = false) : dgetBool ini env sec opt d = some d := by
  unfold dgetBool
  rw [cfgGet_none_of_hasOption_false h]

theorem dgetStr_of_absent {ini : Ini} {env : StrEnv} {sec opt : String}
    {d : Option String} (h : hasOption ini sec opt = false) :
    dgetStr ini env sec opt d = d := by
  unfold dgetStr
  rw [cfgGet_none_of_hasOption_false h]

theorem dgetStr_some_of_hasOption {ini : Ini} {env : StrEnv} {sec opt : String}
    {d : Option String} (h : hasOption ini sec opt = true) :
    ∃ v, dgetStr ini env sec opt d = some v := by
  obtain ⟨v, hv⟩ := @cfgGet_isSome_of_hasOption ini env sec opt h
  exact ⟨v, by unfold dgetStr; rw [hv]⟩

/-! ## Lemmas: inversion of `main_options` and `get_config` -/

/-- The keys the global-options pass writes. -/
def mainKeys : List String :=
  ["check_delay", "endpoint", "endpoint_owner", "pubsub_endpoint",
   "multicast_endpoint", "stats_endpoint", "statsd", "umask", "warmup_delay",
   "httpd", "httpd_host", "httpd_port", "debug", "debug_gc", "pidfile",
   "loglevel", "logoutput", "loggerconfig", "fqdn_prefix", "papa_endpoint"]

theorem main_options_inv {ini : Ini} {genv : StrEnv} {mo : Dict × List Warning}
    (h : main_options ini genv = some mo) :
    ∃ cd sd0,
      dgetFloat ini genv "circus" "check_delay" 5 = some cd ∧
      dgetBool ini genv "circus" "statsd" false = some sd0 ∧
      mo.2 = (stats_fix (dgetStr ini genv "circus" "stats_endpoint" Option.none) sd0).2.2 ∧
      dlookup mo.1 "check_delay" = some (PyVal.float cd) ∧
      dlookup mo.1 "stats_endpoint" = some (PyVal.str
        (stats_fix (dgetStr ini genv "circus" "stats_endpoint" Option.none) sd0).1) ∧
      dlookup mo.1 "statsd" = some (PyVal.bool
        (stats_fix (dgetStr ini genv "circus" "stats_endpoint" Option.none) sd0).2.1) ∧
      (∀ k ∈ mainKeys, (dlookup mo.1 k).isSome) := by
  unfold main_options at h
  simp only [Option.bind_eq_bind', Option.bind_eq_some, Option.pure_def,
    Option.some.injEq] at h
  obtain ⟨cd, hcd, sd0, hsd, um, hum, wd, hwd, hp, hhp, port, hport, db, hdb,
    dg, hdg, heq⟩ := h
  subst heq
  refine ⟨cd, sd0, hcd, hsd, rfl, ?_, ?_, ?_, ?_⟩
  · simp [dlookup]
  · simp [dlookup]
  · simp [dlookup]
  · intro k hk
    simp only [mainKeys, List.mem_cons, List.not_mem_nil, or_false] at hk
    rcases hk with rfl | rfl | rfl | rfl | rfl | rfl | rfl | rfl | rfl | rfl | rfl |
      rfl | rfl | rfl | rfl | rfl | rfl | rfl | rfl | rfl <;> simp [dlookup]

theorem get_config_inv {ini : Ini} {osEnv : StrEnv} {c : Dict} {wrn : List Warning}
    (h : get_config ini osEnv = some (c, wrn)) :
    ∃ mo fp out warns2,
      main_options ini (global_env ini osEnv) = some mo ∧
      first_pass ini (global_env ini osEnv) (local_env ini osEnv) = some fp ∧
      second_pass ini (global_env ini osEnv)
        ((sort_by_field (fun pr => priorityOf pr.2) fp.watchers).map
          (apply_env_sections ini)) = some (out, warns2) ∧
      c = dset (dset (dset mo.1
        "watchers" (PyVal.list (out.map (fun pr => PyVal.dict pr.2))))
        "plugins" (PyVal.list ((sort_by_field priorityOf fp.plugins).map PyVal.dict)))
        "sockets" (PyVal.list ((sort_by_field priorityOf fp.sockets).map PyVal.dict)) ∧
      wrn = mo.2 ++ warns2 := by
  unfold get_config at h
  simp only [Option.bind_eq_bind', Option.bind_eq_some, Option.pure_def,
    Option.some.injEq] at h
  obtain ⟨mo, hmo, fp, hfp, sp, hsp, heq⟩ := h
  cases heq
  exact ⟨mo, fp, sp.1, sp.2, hmo, hfp, hsp, rfl, rfl⟩

/-! ### Claim theorems -/

theorem dlookup_watcherInit (sn : String) (b : Bool) (g l : StrEnv) (k : String)
    (h1 : k ≠ "name") (h2 : k ≠ "copy_env") (h3 : k ≠ "env") :
    dlookup (watcherInit sn b g l) k = dlookup watcher_defaults k := by
  unfold watcherInit
  rw [dlookup_dset, if_neg (fun he => h3 he.symm), dlookup_dset,
    if_neg (fun he => h2 he.symm), dlookup_dset, if_neg (fun he => h1 he.symm)]

/-- C1: whenever `get_config` returns a snapshot, the snapshot contains
the global option keys `check_delay`, `endpoint`, `pubsub_endpoint`,
`stats_endpoint`, `statsd`, `umask`, `warmup_delay`, `loglevel` and
`pidfile`, together with the three list-valued keys `watchers`,
`sockets` and `plugins`, each entry of those lists being a
dictionary. -/
theorem c1_snapshot_keys (ini : Ini) (osEnv : StrEnv) (c : Dict) (wrn : List Warning)
    (h : get_config ini osEnv = some (c, wrn)) :
    (∀ k ∈ ["check_delay", "endpoint", "pubsub_endpoint", "stats_endpoint", "statsd",
        "umask", "warmup_delay", "loglevel", "pidfile"], (dlookup c k).isSome) ∧
    (∀ k ∈ ["watchers", "sockets", "plugins"],
      ∃ l, dlookup c k = some (PyVal.list l) ∧ ∀ x ∈ l, ∃ d, x = PyVal.dict d) := by
  obtain ⟨mo, fp, out, warns2, hmo, hfp, hsp, rfl, rfl⟩ := get_config_inv h
  obtain ⟨cd, sd0, _, _, _, _, _, _, hkeys⟩ := main_options_inv hmo
  constructor
  · intro k hk
    simp only [List.mem_cons, List.not_mem_nil, or_false] at hk
    rcases hk with rfl | rfl | rfl | rfl | rfl | rfl | rfl | rfl | rfl <;>
      (rw [dlookup_dset, if_neg (by decide), dlookup_dset, if_neg (by decide),
        dlookup_dset, if_neg (by decide)]
       exact hkeys _ (by simp [mainKeys]))
  · intro k hk
    simp only [List.mem_cons, List.not_mem_nil, or_false] at hk
    rcases hk with rfl | rfl | rfl
    · rw [dlookup_dset, if_neg (by decide), dlookup_dset, if_neg (by decide),
        dlookup_dset, if_pos rfl]
      refine ⟨_, rfl, fun x hx => ?_⟩
      obtain ⟨pr, _, rfl⟩ := List.mem_map.mp hx
      exact ⟨pr.2, rfl⟩
    · rw [dlookup_dset, if_pos rfl]
      refine ⟨_, rfl, fun x hx => ?_⟩
      obtain ⟨d, _, rfl⟩ := List.mem_map.mp hx
      exact ⟨d, rfl⟩
    · rw [dlookup_dset, if_neg (by decide), dlookup_dset, if_pos rfl]
      refine ⟨_, rfl, fun x hx => ?_⟩
      obtain ⟨d, _, rfl⟩ := List.mem_map.mp hx
      exact ⟨d, rfl⟩

/-- C1 witness: the property evaluated on a minimal configuration. -/
theorem c1_snapshot_keys_witness :
    (∀ k ∈ ["check_delay", "endpoint", "pubsub_endpoint", "stats_endpoint", "statsd",
        "umask", "warmup_delay", "loglevel", "pidfile"],
      (dlookup ((get_config iniMinimal []).iget.1) k).isSome) ∧
    (∀ k ∈ ["watchers", "sockets", "plugins"],
      ∃ l, dlookup ((get_config iniMinimal []).iget.1) k = some (PyVal.list l) ∧
        ∀ x ∈ l, ∃ d, x = PyVal.dict d) :=
  c1_snapshot_keys iniMinimal [] ((get_config iniMinimal []).iget.1)
    ((get_config iniMinimal []).iget.2) rfl

/-- C5: with `check_delay` absent from `[circus]` and the four options
absent from every watcher section, `get_config` returns `check_delay`
5 (seconds) and every watcher defaults to `max_retry = 5`,
`numprocesses = 1`, `respawn = true` and `autostart = true`. -/
theorem c5_defaults (ini : Ini) (osEnv : StrEnv) (c : Dict) (wrn : List Warning)
    (hwf : ini.Wf) (h : get_config ini osEnv = some (c, wrn))
    (hcd : hasOption ini "circus" "check_delay" = false)
    (hwopts : ∀ sec ∈ ini.sections, pyStartswith sec.name "watcher:" = true →
      ∀ k ∈ ["max_retry", "numprocesses", "respawn", "autostart"],
        k ∉ sec.options.map Prod.fst) :
    dlookup c "check_delay" = some (PyVal.float 5) ∧
    ∀ ws, dlookup c "watchers" = some (PyVal.list ws) →
      ∀ x ∈ ws, ∃ d, x = PyVal.dict d ∧
        dlookup d "max_retry" = some (PyVal.int 5) ∧
        dlookup d "numprocesses" = some (PyVal.int 1) ∧
        dlookup d "respawn" = some (PyVal.bool true) ∧
        dlookup d "autostart" = some (PyVal.bool true) := by
  obtain ⟨mo, fp, out, warns2, hmo, hfp, hsp, rfl, rfl⟩ := get_config_inv h
  obtain ⟨cd, sd0, hcdval, _, _, hcdlook, _, _, _⟩ := main_options_inv hmo
  constructor
  · rw [dlookup_dset, if_neg (by decide), dlookup_dset, if_neg (by decide),
      dlookup_dset, if_neg (by decide), hcdlook]
    rw [dgetFloat_of_absent hcd] at hcdval
    cases hcdval
    rfl
  · intro ws hws x hx
    rw [dlookup_dset, if_neg (by decide), dlookup_dset, if_neg (by decide),
      dlookup_dset, if_pos rfl] at hws
    cases hws
    obtain ⟨pr, hpr, rfl⟩ := List.mem_map.mp hx
    refine ⟨pr.2, rfl, ?_⟩
    obtain ⟨pr0, hpr0mem, hfst, warns0, hspw⟩ := second_pass_inv hsp pr hpr
    obtain ⟨pr1, hpr1mem, hpr1eq⟩ := List.mem_map.mp hpr0mem
    have hpr1w : pr1 ∈ fp.watchers := (mem_sort_by_field _ _ _).mp hpr1mem
    unfold first_pass at hfp
    rcases foldlM_first_pass_inv ini (global_env ini osEnv) (local_env ini osEnv)
        ini.sections ⟨[], [], []⟩ fp hfp pr1 hpr1w with hin | ⟨sec, hsecmem, hsw, b, hb, rfl⟩
    · simp at hin
    · unfold second_pass_watcher at hspw
      have hopts : itemsRaw ini pr0.1 = sec.options := by
        have : pr0.1 = sec.name := by
          rw [← hpr1eq, apply_env_sections_fst]
        rw [this]
        exact itemsRaw_of_mem hwf.1 hsecmem
      rw [hopts] at hspw
      have main : ∀ k, k ≠ "rlimits" → k ≠ "hooks" →
          pyStartswith k "stderr_stream" = false →
          pyStartswith k "stdout_stream" = false →
          k ≠ "name" → k ≠ "copy_env" → k ≠ "env" →
          k ∈ (["max_retry", "numprocesses", "respawn", "autostart"] : List String) →
          dlookup pr.2 k = dlookup watcher_defaults k := by
        intro k hkr hkh hks1 hks2 hkn hkc hke hkmem
        have habsent := hwopts sec hsecmem hsw k hkmem
        have hstep := foldlM_apply_preserves _ k hkr hkh hks1 hks2 sec.options
          (pr0.2, []) (pr.2, warns0) hspw
          (fun p hp hpk => habsent (hpk ▸ List.mem_map.mpr ⟨p, hp, rfl⟩))
        rw [hstep]
        rw [← hpr1eq, apply_env_sections_dlookup _ _ _ hke]
        exact dlookup_watcherInit _ _ _ _ _ hkn hkc hke
      refine ⟨?_, ?_, ?_, ?_⟩
      · rw [main "max_retry" (by decide) (by decide) (by decide) (by decide)
          (by decide) (by decide) (by decide) (by simp)]
        rfl
      · rw [main "numprocesses" (by decide) (by decide) (by decide) (by decide)
          (by decide) (by decide) (by decide) (by simp)]
        rfl
      · rw [main "respawn" (by decide) (by decide) (by decide) (by decide)
          (by decide) (by decide) (by decide) (by simp)]
        rfl
      · rw [main "autostart" (by decide) (by decide) (by decide) (by decide)
          (by decide) (by decide) (by decide) (by simp)]
        rfl

/-- C5 witness: the defaults on a minimal configuration. -/
theorem c5_defaults_witness :
    dlookup ((get_config iniMinimal []).iget.1) "check_delay" =
      some (PyVal.float 5) ∧
    ∀ ws, dlookup ((get_config iniMinimal []).iget.1) "watchers" =
        some (PyVal.list ws) →
      ∀ x ∈ ws, ∃ d, x = PyVal.dict d ∧
        dlookup d "max_retry" = some (PyVal.int 5) ∧
        dlookup d "numprocesses" = some (PyVal.int 1) ∧
        dlookup d "respawn" = some (PyVal.bool true) ∧
        dlookup d "autostart" = some (PyVal.bool true) :=
  c5_defaults iniMinimal [] ((get_config iniMinimal []).iget.1)
    ((get_config iniMinimal []).iget.2)
    (by constructor
        · decide
        · intro sec hsec
          simp only [iniMinimal, List.mem_singleton] at hsec
          subst hsec
          decide)
    rfl (by decide)
    (by intro sec hsec hsw k hk
        simp only [iniMinimal, List.mem_singleton] at hsec
        subst hsec
        simp only [List.mem_cons, List.not_mem_nil, or_false] at hk
        rcases hk with rfl | rfl | rfl | rfl <;> decide)

/-- C4: a watcher section option `rlimit_NAME = -1` makes the
snapshot's `rlimits` for that watcher map `NAME` to `RLIM_INFINITY`
(which is -1 on the modelled platform, the value `int("-1")` produces). -/
theorem c4_rlimit_infinity (ini : Ini) (osEnv : StrEnv) (c : Dict) (wrn : List Warning)
    (sec : IniSection) (lim : String)
    (hwf : ini.Wf) (h : get_config ini osEnv = some (c, wrn))
    (hsec : sec ∈ ini.sections) (hsw : pyStartswith sec.name "watcher:" = true)
    (hopt : ("rlimit_" ++ lim, "-1") ∈ sec.options)
    (hnorl : "rlimits" ∉ sec.options.map Prod.fst)
    (hnoname : "name" ∉ sec.options.map Prod.fst) :
    ∃ ws, dlookup c "watchers" = some (PyVal.list ws) ∧
      ∃ d, PyVal.dict d ∈ ws ∧
        dlookup d "name" = some (PyVal.str (pyDrop sec.name 8)) ∧
        ∃ rd, dlookup d "rlimits" = some (PyVal.dict rd) ∧
          dlookup rd lim = some (PyVal.int RLIM_INFINITY) := by
  obtain ⟨mo, fp, out, warns2, hmo, hfp, hsp, rfl, rfl⟩ := get_config_inv h
  refine ⟨out.map (fun pr => PyVal.dict pr.2), ?_, ?_⟩
  · rw [dlookup_dset, if_neg (by decide), dlookup_dset, if_neg (by decide),
      dlookup_dset, if_pos rfl]
  · have hitems := itemsRepl_of_mem (global_env ini osEnv) hwf.1 hsec
    have hmm : ("rlimit_" ++ lim) ∈
        (itemsRepl ini (global_env ini osEnv) sec.name).map Prod.fst := by
      rw [hitems, List.map_map]
      exact List.mem_map.mpr ⟨_, hopt, rfl⟩
    have h1 : (itemsRepl ini (global_env ini osEnv) sec.name).isEmpty = false := by
      cases hi2 : itemsRepl ini (global_env ini osEnv) sec.name with
      | nil => rw [hi2] at hmm; simp at hmm
      | cons a l => rfl
    have h2 : ¬((itemsRepl ini (global_env ini osEnv) sec.name).map Prod.fst =
        ["__name__"]) := by
      intro he
      rw [he] at hmm
      simp only [List.mem_singleton] at hmm
      exact append_ne_of_not_startswith (by decide) lim hmm
    have hskip : ((itemsRepl ini (global_env ini osEnv) sec.name).isEmpty ||
        (itemsRepl ini (global_env ini osEnv) sec.name).map Prod.fst =
          ["__name__"]) = false := by
      simp [h1, h2]
    unfold first_pass at hfp
    obtain ⟨b, hb, hmemfp⟩ := foldlM_first_pass_of ini (global_env ini osEnv)
      (local_env ini osEnv) ini.sections ⟨[], [], []⟩ fp hfp sec hsec hsw hskip
    set pr1 : String × Dict :=
      (sec.name, watcherInit sec.name b (global_env ini osEnv) (local_env ini osEnv))
      with hpr1def
    have hsorted : pr1 ∈ sort_by_field (fun pr => priorityOf pr.2) fp.watchers :=
      (mem_sort_by_field _ _ _).mpr hmemfp
    have hmapped : apply_env_sections ini pr1 ∈
        (sort_by_field (fun pr => priorityOf pr.2) fp.watchers).map
          (apply_env_sections ini) :=
      List.mem_map.mpr ⟨pr1, hsorted, rfl⟩
    obtain ⟨r, hspw, hmemout⟩ := second_pass_of hsp _ hmapped
    refine ⟨r.1, List.mem_map.mpr ⟨_, hmemout, rfl⟩, ?_, ?_⟩
    · -- the name field survives the pipeline
      unfold second_pass_watcher at hspw
      have hfst : (apply_env_sections ini pr1).1 = sec.name := by
        rw [apply_env_sections_fst]
      rw [hfst, itemsRaw_of_mem hwf.1 hsec] at hspw
      have hpres := foldlM_apply_preserves _ "name" (by decide) (by decide)
        (by decide) (by decide) sec.options _ (r.1, r.2)
        (by rw [← hspw]) 
        (fun p hp hpk => hnoname (hpk ▸ List.mem_map.mpr ⟨p, hp, rfl⟩))
      rw [hpres]
      rw [apply_env_sections_dlookup _ _ _ (by decide)]
      show dlookup (watcherInit sec.name b _ _) "name" = _
      unfold watcherInit
      rw [dlookup_dset, if_neg (by decide), dlookup_dset, if_neg (by decide),
        dlookup_dset, if_pos rfl]
    · -- the rlimits entry
      unfold second_pass_watcher at hspw
      have hfst : (apply_env_sections ini pr1).1 = sec.name := by
        rw [apply_env_sections_fst]
      rw [hfst, itemsRaw_of_mem hwf.1 hsec] at hspw
      have := foldlM_apply_rlimit_found _ lim sec.options _ (r.1, r.2)
        (by rw [← hspw]) hopt (hwf.2 sec hsec) hnorl
      exact this

theorem envSet_keys_nodup {e : StrEnv} {k v : String}
    (h : (e.map Prod.fst).Nodup) : ((envSet e k v).map Prod.fst).Nodup := by
  induction e with
  | nil => simp [envSet]
  | cons p rest ih =>
    simp only [List.map_cons, List.nodup_cons] at h
    by_cases hk : p.1 = k
    · subst hk
      simpa [envSet] using h
    · simp only [envSet, if_neg hk, List.map_cons, List.nodup_cons]
      refine ⟨?_, ih h.2⟩
      intro hmem
      have : ∀ (e' : StrEnv) (a : String), a ≠ k → a ∈ (envSet e' k v).map Prod.fst →
          a ∈ e'.map Prod.fst := by
        intro e' a ha hm
        induction e' with
        | nil => simp [envSet] at hm; exact absurd hm ha
        | cons q qs ihq =>
          simp only [envSet] at hm
          by_cases hq : q.1 = k
          · rw [if_pos hq] at hm
            simp only [List.map_cons, List.mem_cons] at hm
            rcases hm with rfl | hm
            · exact absurd rfl ha
            · exact List.mem_cons_of_mem _ hm
          · rw [if_neg hq] at hm
            simp only [List.map_cons, List.mem_cons] at hm ⊢
            rcases hm with rfl | hm
            · exact Or.inl rfl
            · exact Or.inr (ihq hm)
      by_cases hpk : p.1 = k
      · exact hk hpk
      · exact h.1 (this rest p.1 hpk hmem)

theorem foldl_envSet_keys_nodup (items : List (String × String)) :
    ∀ (acc : StrEnv), (acc.map Prod.fst).Nodup →
      ((items.foldl (fun acc p => envSet acc p.1 p.2) acc).map Prod.fst).Nodup := by
  induction items with
  | nil => intro acc h; exact h
  | cons p ps ih =>
    intro acc h
    simp only [List.foldl_cons]
    exact ih _ (envSet_keys_nodup h)

theorem envLookup_foldl_envSet_of_not_mem (k : String) :
    ∀ (items : List (String × String)) (acc : StrEnv), k ∉ items.map Prod.fst →
      envLookup (items.foldl (fun acc p => envSet acc p.1 p.2) acc) k =
        envLookup acc k := by
  intro items
  induction items with
  | nil => intro acc _; rfl
  | cons p ps ih =>
    intro acc hk
    simp only [List.map_cons, List.mem_cons, not_or] at hk
    simp only [List.foldl_cons]
    rw [ih _ hk.2, envLookup_envSet, if_neg (fun he => hk.1 he.symm)]

theorem local_env_keys_nodup (ini : Ini) (osEnv : StrEnv) :
    ((local_env ini osEnv).map Prod.fst).Nodup := by
  unfold local_env
  split
  · exact foldl_envSet_keys_nodup _ [] (by simp)
  · simp

theorem envLookup_local_env_path (ini : Ini) (osEnv : StrEnv)
    (hnopath : ∀ sec ∈ ini.sections, sec.name = "env" →
      "PATH" ∉ sec.options.map Prod.fst) :
    envLookup (local_env ini osEnv) "PATH" = Option.none := by
  unfold local_env
  split
  · rw [envLookup_foldl_envSet_of_not_mem]
    · rfl
    · unfold itemsRepl
      cases hf : ini.findSection "env" with
      | none => simp
      | some s =>
        have hmem := List.mem_of_find?_eq_some hf
        have hname := List.find?_some hf
        simp only [decide_eq_true_eq] at hname
        have := hnopath s hmem hname
        simp only [Option.map_some', Option.getD_some, List.map_map]
        intro hmm
        obtain ⟨q, hq, hqe⟩ := List.mem_map.mp hmm
        exact this (hqe ▸ List.mem_map.mpr ⟨q, hq, rfl⟩)
  · rfl

theorem envLookup_global_env_path (ini : Ini) (osEnv : StrEnv)
    (hnopath : ∀ sec ∈ ini.sections, sec.name = "env" →
      "PATH" ∉ sec.options.map Prod.fst) :
    envLookup (global_env ini osEnv) "PATH" = envLookup osEnv "PATH" := by
  unfold global_env
  rw [envLookup_envUpdate _ _ _ (local_env_keys_nodup ini osEnv)]
  rw [envLookup_local_env_path ini osEnv hnopath]

/-- C7 (amended): with no `env:` sections, no `PATH` entry in `[env]`,
and no literal `env` or `name` option in watcher sections, every
watcher dictionary of the snapshot carries the name of the unique
`watcher:` section it came from, and the `env` recorded in that
dictionary contains `PATH` exactly when that section's own `copy_env`
option parsed to `true` — `PATH` is then the parent process's; with
`copy_env` false there is no `PATH` entry. Moreover a `copy_path`
option is processed by writing the `copy_path` key alone: it changes no
other key of the watcher — in particular it leaves the recorded `env`,
and hence its `PATH` entry, untouched. -/
theorem c7_path_iff_copy_env (ini : Ini) (osEnv : StrEnv) (c : Dict)
    (wrn : List Warning)
    (hwf : ini.Wf) (h : get_config ini osEnv = some (c, wrn))
    (hnoenvsec : ∀ sec ∈ ini.sections, pyStartswith sec.name "env:" = false)
    (hnopath : ∀ sec ∈ ini.sections, sec.name = "env" →
      "PATH" ∉ sec.options.map Prod.fst)
    (hnoenvopt : ∀ sec ∈ ini.sections, pyStartswith sec.name "watcher:" = true →
      "env" ∉ sec.options.map Prod.fst)
    (hnoname : ∀ sec ∈ ini.sections, pyStartswith sec.name "watcher:" = true →
      "name" ∉ sec.options.map Prod.fst) :
    (∀ ws, dlookup c "watchers" = some (PyVal.list ws) →
      ∀ x ∈ ws, ∃ d envd sec b, x = PyVal.dict d ∧
        sec ∈ ini.sections ∧ pyStartswith sec.name "watcher:" = true ∧
        dlookup d "name" = some (PyVal.str (pyDrop sec.name 8)) ∧
        dgetBool ini (global_env ini osEnv) sec.name "copy_env" false = some b ∧
        dlookup d "env" = some (PyVal.dict envd) ∧
        dlookup envd "PATH" =
          (if b then (envLookup osEnv "PATH").map PyVal.str else Option.none)) ∧
    (∀ wenv w warns v res,
      applyWatcherOption wenv (w, warns) ("copy_path", v) = some res →
      res.2 = warns ∧ ∀ k, k ≠ "copy_path" → dlookup res.1 k = dlookup w k) := by
  refine ⟨?_, ?_⟩
  case refine_2 =>
    intro wenv w warns v res hres
    have he : applyWatcherOption wenv (w, warns) ("copy_path", v) =
        optBool w warns "copy_path" (replace_gnu_args v wenv) := rfl
    rw [he] at hres
    unfold optBool at hres
    rw [Option.map_eq_some'] at hres
    obtain ⟨bl, hbl, hbeq⟩ := hres
    cases hbeq
    refine ⟨rfl, ?_⟩
    intro k hk
    show dlookup (dset w "copy_path" (PyVal.bool bl)) k = dlookup w k
    rw [dlookup_dset, if_neg (fun he2 => hk he2.symm)]
  obtain ⟨mo, fp, out, warns2, hmo, hfp, hsp, rfl, rfl⟩ := get_config_inv h
  intro ws hws x hx
  rw [dlookup_dset, if_neg (by decide), dlookup_dset, if_neg (by decide),
    dlookup_dset, if_pos rfl] at hws
  cases hws
  obtain ⟨pr, hpr, rfl⟩ := List.mem_map.mp hx
  obtain ⟨pr0, hpr0mem, hfst, warns0, hspw⟩ := second_pass_inv hsp pr hpr
  obtain ⟨pr1, hpr1mem, hpr1eq⟩ := List.mem_map.mp hpr0mem
  have hpr1w : pr1 ∈ fp.watchers := (mem_sort_by_field _ _ _).mp hpr1mem
  unfold first_pass at hfp
  rcases foldlM_first_pass_inv ini (global_env ini osEnv) (local_env ini osEnv)
      ini.sections ⟨[], [], []⟩ fp hfp pr1 hpr1w with hin | ⟨sec, hsecmem, hsw, b, hb, rfl⟩
  · simp at hin
  · have hid : apply_env_sections ini
        (sec.name, watcherInit sec.name b (global_env ini osEnv)
          (local_env ini osEnv)) =
        (sec.name, watcherInit sec.name b (global_env ini osEnv)
          (local_env ini osEnv)) :=
      apply_env_sections_id ini _ hnoenvsec
    rw [hid] at hpr1eq
    unfold second_pass_watcher at hspw
    rw [← hpr1eq] at hspw
    rw [itemsRaw_of_mem hwf.1 hsecmem] at hspw
    have hpres := foldlM_apply_preserves _ "env" (by decide) (by decide)
      (by decide) (by decide) sec.options _ (pr.2, warns0) hspw
      (fun p hp hpk => hnoenvopt sec hsecmem hsw
        (hpk ▸ List.mem_map.mpr ⟨p, hp, rfl⟩))
    have hpresname := foldlM_apply_preserves _ "name" (by decide) (by decide)
      (by decide) (by decide) sec.options _ (pr.2, warns0) hspw
      (fun p hp hpk => hnoname sec hsecmem hsw
        (hpk ▸ List.mem_map.mpr ⟨p, hp, rfl⟩))
    have hname : dlookup pr.2 "name" = some (PyVal.str (pyDrop sec.name 8)) := by
      rw [hpresname]
      show dlookup (watcherInit sec.name b _ _) "name" = _
      unfold watcherInit
      rw [dlookup_dset, if_neg (by decide), dlookup_dset, if_neg (by decide),
        dlookup_dset, if_pos rfl]
    have henv : dlookup pr.2 "env" = some (PyVal.dict (strDict
        (if b then global_env ini osEnv else local_env ini osEnv))) := by
      rw [hpres]
      show dlookup (watcherInit sec.name b _ _) "env" = _
      unfold watcherInit
      rw [dlookup_dset, if_pos rfl]
    refine ⟨pr.2, strDict (if b then global_env ini osEnv else local_env ini osEnv),
      sec, b, rfl, hsecmem, hsw, hname, hb, henv, ?_⟩
    rw [dlookup_strDict]
    cases b with
    | true =>
      show Option.map PyVal.str (envLookup (global_env ini osEnv) "PATH") =
        Option.map PyVal.str (envLookup osEnv "PATH")
      rw [envLookup_global_env_path ini osEnv hnopath]
    | false =>
      show Option.map PyVal.str (envLookup (local_env ini osEnv) "PATH") =
        Option.none
      rw [envLookup_local_env_path ini osEnv hnopath]
      rfl

/-- C7 counterexample: in `iniCopyEnv` the watcher has
`copy_path = false`, yet the snapshot env inherits `PATH = /bin` from
the parent environment (because `copy_env = true`) — refuting "inherits
`PATH` if and only if `copy_path` is true". -/
theorem c7_counterexample :
    (firstWatcher (get_config iniCopyEnv [("PATH", "/bin")])).map
      (fun d => (dlookup d "copy_path", watcherEnvLookup d "PATH")) =
    some (some (PyVal.bool false), some (PyVal.str "/bin")) := rfl

/-- C7 witness: the amended statement applied to `iniCopyEnv`, plus the
`copy_path` frame clause at a concrete option and key. -/
theorem c7_path_iff_copy_env_witness :
    (∃ d envd sec b,
      PyVal.dict ((firstWatcher (get_config iniCopyEnv [("PATH", "/bin")])).iget) =
        PyVal.dict d ∧
      sec ∈ iniCopyEnv.sections ∧ pyStartswith sec.name "watcher:" = true ∧
      dlookup d "name" = some (PyVal.str (pyDrop sec.name 8)) ∧
      dgetBool iniCopyEnv (global_env iniCopyEnv [("PATH", "/bin")]) sec.name
        "copy_env" false = some b ∧
      dlookup d "env" = some (PyVal.dict envd) ∧
      dlookup envd "PATH" =
        (if b then (envLookup [("PATH", "/bin")] "PATH").map PyVal.str
         else Option.none)) ∧
    dlookup [("copy_path", PyVal.bool true)] "env" = dlookup ([] : Dict) "env" :=
  ⟨(c7_path_iff_copy_env iniCopyEnv [("PATH", "/bin")]
      ((get_config iniCopyEnv [("PATH", "/bin")]).iget.1)
      ((get_config iniCopyEnv [("PATH", "/bin")]).iget.2)
      (by constructor
          · decide
          · intro sec hsec
            simp only [iniCopyEnv, List.mem_singleton] at hsec
            subst hsec
            decide)
      rfl
      (by intro sec hsec
          simp only [iniCopyEnv, List.mem_singleton] at hsec
          subst hsec
          decide)
      (by intro sec hsec
          simp only [iniCopyEnv, List.mem_singleton] at hsec
          subst hsec
          intro hname
          exact absurd hname (by decide))
      (by intro sec hsec _
          simp only [iniCopyEnv, List.mem_singleton] at hsec
          subst hsec
          decide)
      (by intro sec hsec _
          simp only [iniCopyEnv, List.mem_singleton] at hsec
          subst hsec
          decide)).1
    _ rfl _ (List.Mem.head _),
   ((c7_path_iff_copy_env iniCopyEnv [("PATH", "/bin")]
      ((get_config iniCopyEnv [("PATH", "/bin")]).iget.1)
      ((get_config iniCopyEnv [("PATH", "/bin")]).iget.2)
      (by constructor
          · decide
          · intro sec hsec
            simp only [iniCopyEnv, List.mem_singleton] at hsec
            subst hsec
            decide)
      rfl
      (by intro sec hsec
          simp only [iniCopyEnv, List.mem_singleton] at hsec
          subst hsec
          decide)
      (by intro sec hsec
          simp only [iniCopyEnv, List.mem_singleton] at hsec
          subst hsec
          intro hname
          exact absurd hname (by decide))
      (by intro sec hsec _
          simp only [iniCopyEnv, List.mem_singleton] at hsec
          subst hsec
          decide)
      (by intro sec hsec _
          simp only [iniCopyEnv, List.mem_singleton] at hsec
          subst hsec
          decide)).2
    [] [] [] "true" ([("copy_path", PyVal.bool true)], []) rfl).2 "env"
      (by decide)⟩

/-- C3: configuring `stats_endpoint` while `statsd` parses to `false`
silently turns `statsd` on and emits the deprecation warning; with
`stats_endpoint` absent it defaults to `DEFAULT_ENDPOINT_STATS` and
`statsd` keeps its configured value. -/
theorem c3_statsd_enable (ini : Ini) (osEnv : StrEnv) (c : Dict) (wrn : List Warning)
    (h : get_config ini osEnv = some (c, wrn)) :
    (hasOption ini "circus" "stats_endpoint" = true →
      dgetBool ini (global_env ini osEnv) "circus" "statsd" false = some false →
      dlookup c "statsd" = some (PyVal.bool true) ∧
        Warning.statsdDeprecation ∈ wrn) ∧
    (hasOption ini "circus" "stats_endpoint" = false →
      dlookup c "stats_endpoint" = some (PyVal.str DEFAULT_ENDPOINT_STATS) ∧
      ∀ b, dgetBool ini (global_env ini osEnv) "circus" "statsd" false = some b →
        dlookup c "statsd" = some (PyVal.bool b)) := by
  obtain ⟨mo, fp, out, warns2, hmo, hfp, hsp, rfl, rfl⟩ := get_config_inv h
  obtain ⟨cd, sd0, hcdval, hsd, hwrn, hcdlook, hselook, hsdlook, _⟩ :=
    main_options_inv hmo
  constructor
  · intro hhas hfalse
    rw [hsd] at hfalse
    have hsd0 : sd0 = false := by cases hfalse; rfl
    subst hsd0
    obtain ⟨v, hv⟩ := @dgetStr_some_of_hasOption ini (global_env ini osEnv)
      "circus" "stats_endpoint" Option.none hhas
    rw [hv] at hsdlook
    constructor
    · rw [dlookup_dset, if_neg (by decide), dlookup_dset, if_neg (by decide),
        dlookup_dset, if_neg (by decide), hsdlook]
      rfl
    · rw [hwrn, hv]
      show Warning.statsdDeprecation ∈
        (stats_fix (some v) false).2.2 ++ warns2
      simp [stats_fix]
  · intro hhasnot
    have hv : dgetStr ini (global_env ini osEnv) "circus" "stats_endpoint"
        Option.none = Option.none := dgetStr_of_absent hhasnot
    rw [hv] at hselook hsdlook
    constructor
    · rw [dlookup_dset, if_neg (by decide), dlookup_dset, if_neg (by decide),
        dlookup_dset, if_neg (by decide), hselook]
      rfl
    · intro b hb
      rw [hsd] at hb
      have : sd0 = b := by cases hb; rfl
      subst this
      rw [dlookup_dset, if_neg (by decide), dlookup_dset, if_neg (by decide),
        dlookup_dset, if_neg (by decide), hsdlook]
      rfl

/-- C3 witness: both branches exercised on concrete configurations. -/
theorem c3_statsd_enable_witness :
    (dlookup ((get_config iniStats []).iget.1) "statsd" = some (PyVal.bool true) ∧
      Warning.statsdDeprecation ∈ (get_config iniStats []).iget.2) ∧
    (dlookup ((get_config iniStatsdOnly []).iget.1) "stats_endpoint" =
        some (PyVal.str DEFAULT_ENDPOINT_STATS) ∧
      dlookup ((get_config iniStatsdOnly []).iget.1) "statsd" =
        some (PyVal.bool true)) :=
  ⟨(c3_statsd_enable iniStats [] ((get_config iniStats []).iget.1)
      ((get_config iniStats []).iget.2) rfl).1 (by decide) rfl,
   ⟨((c3_statsd_enable iniStatsdOnly [] ((get_config iniStatsdOnly []).iget.1)
      ((get_config iniStatsdOnly []).iget.2) rfl).2 (by decide)).1,
    ((c3_statsd_enable iniStatsdOnly [] ((get_config iniStatsdOnly []).iget.1)
      ((get_config iniStatsdOnly []).iget.2) rfl).2 (by decide)).2 true rfl⟩⟩

/-- C2, the code's actual behaviour at the failing input: the two
watchers keep their section order `a`, `b` even though their priorities
are 1 and 2 — `sort_by_field` runs before the second pass parses any
`priority` option, so every watcher still has the default priority 0
when sorted and the claimed priority-descending order never happens. -/
theorem c2_sort_before_priority_parse :
    watchersProj (get_config iniPriorities []) "name" =
      some [some (PyVal.str "a"), some (PyVal.str "b")] ∧
    watchersProj (get_config iniPriorities []) "priority" =
      some [some (PyVal.int 1), some (PyVal.int 2)] := ⟨rfl, rfl⟩

/-- C4 witness: `rlimit_core = -1` on a concrete configuration. -/
theorem c4_rlimit_infinity_witness :
    ∃ ws, dlookup ((get_config iniRlimit []).iget.1) "watchers" =
        some (PyVal.list ws) ∧
      ∃ d, PyVal.dict d ∈ ws ∧
        dlookup d "name" = some (PyVal.str (pyDrop "watcher:w" 8)) ∧
        ∃ rd, dlookup d "rlimits" = some (PyVal.dict rd) ∧
          dlookup rd "core" = some (PyVal.int RLIM_INFINITY) :=
  c4_rlimit_infinity iniRlimit [] ((get_config iniRlimit []).iget.1)
    ((get_config iniRlimit []).iget.2)
    ⟨"watcher:w", [("cmd", "foo"), ("rlimit_core", "-1")]⟩ "core"
    (by constructor
        · decide
        · intro sec hsec
          simp only [iniRlimit, List.mem_singleton] at hsec
          subst hsec
          decide)
    rfl
    (by simp [iniRlimit])
    (by decide)
    (by decide)
    (by decide)
    (by decide)

/-- C6 counterexample: a consumer whose zmq context was supplied by the
caller (`keep_context`): `stop` returns immediately, leaving the
subscriber socket open and the context unreleased — refuting "stopping
the consumer closes the socket and releases the context, including when
the caller supplied the context". -/
theorem c6_counterexample :
    CircusConsumer.stop ⟨true, false, false⟩ Option.none =
      Except.ok ⟨true, false, false⟩ := rfl

/-- C6 (amended): `iter_messages` yields only pairs received on the
subscribed socket; `stop` (and `__exit__`, which calls it) destroys the
context — closing the socket — exactly when the consumer created the
context itself, and is a no-op when the caller supplied the context. -/
theorem c6_consumer_contract :
    (∀ events p, p ∈ (CircusConsumer.iter_messages events).1 →
      ZmqEvent.message p.1 p.2 ∈ events) ∧
    (∀ sc cr, CircusConsumer.stop ⟨false, sc, cr⟩ Option.none =
      Except.ok ⟨false, true, true⟩) ∧
    (∀ s e, s.keepContext = true → CircusConsumer.stop s e = Except.ok s) ∧
    (∀ s e, CircusConsumer.contextExit s e = CircusConsumer.stop s e) := by
  refine ⟨?_, ?_, ?_, ?_⟩
  · intro events
    induction events with
    | nil => intro p hp; simp [CircusConsumer.iter_messages] at hp
    | cons ev rest ih =>
      intro p hp
      cases ev with
      | pollError e =>
        by_cases he : e = EINTR
        · rw [CircusConsumer.iter_messages, if_pos he] at hp
          exact List.mem_cons_of_mem _ (ih p hp)
        · rw [CircusConsumer.iter_messages, if_neg he] at hp
          simp at hp
      | pollTimeout =>
        rw [CircusConsumer.iter_messages] at hp
        exact List.mem_cons_of_mem _ (ih p hp)
      | message t m =>
        rw [CircusConsumer.iter_messages] at hp
        rcases List.mem_cons.mp hp with rfl | hp
        · exact List.Mem.head _
        · exact List.mem_cons_of_mem _ (ih p hp)
  · intro sc cr
    rfl
  · intro s e hs
    unfold CircusConsumer.stop
    rw [if_pos hs]
  · intro s e
    rfl

/-- C6 witness: the amended contract at concrete states and traces. -/
theorem c6_consumer_contract_witness :
    ZmqEvent.message "topic" "msg" ∈
      [ZmqEvent.pollTimeout, ZmqEvent.message "topic" "msg"] ∧
    CircusConsumer.stop ⟨false, false, false⟩ Option.none =
      Except.ok ⟨false, true, true⟩ ∧
    CircusConsumer.stop ⟨true, false, false⟩ (some 11) =
      Except.ok ⟨true, false, false⟩ :=
  ⟨c6_consumer_contract.1 [ZmqEvent.pollTimeout, ZmqEvent.message "topic" "msg"]
      ("topic", "msg") (by simp [CircusConsumer.iter_messages]),
   c6_consumer_contract.2.1 false false,
   c6_consumer_contract.2.2.1 ⟨true, false, false⟩ (some 11) rfl⟩

/-- C9: `iter_messages` retries the poll on `ZMQError(EINTR)` and
re-raises any other `ZMQError`; `stop` (destroying a self-created
context) swallows `ZMQError(EINTR)` and re-raises any other. -/
theorem c9_eintr_handling :
    (∀ rest, CircusConsumer.iter_messages (ZmqEvent.pollError EINTR :: rest) =
      CircusConsumer.iter_messages rest) ∧
    (∀ e rest, e ≠ EINTR →
      CircusConsumer.iter_messages (ZmqEvent.pollError e :: rest) =
        ([], some e)) ∧
    (∀ sc cr, CircusConsumer.stop ⟨false, sc, cr⟩ (some EINTR) =
      Except.ok ⟨false, sc, cr⟩) ∧
    (∀ e sc cr, e ≠ EINTR →
      CircusConsumer.stop ⟨false, sc, cr⟩ (some e) = Except.error e) := by
  refine ⟨?_, ?_, ?_, ?_⟩
  · intro rest
    rw [CircusConsumer.iter_messages, if_pos rfl]
  · intro e rest he
    rw [CircusConsumer.iter_messages, if_neg he]
  · intro sc cr
    unfold CircusConsumer.stop
    rw [if_neg (by simp)]
    simp
  · intro e sc cr he
    unfold CircusConsumer.stop
    rw [if_neg (by simp)]
    simp [he]

/-- C9 witness: concrete errno values (4 is `EINTR`, 11 is not). -/
theorem c9_eintr_handling_witness :
    CircusConsumer.iter_messages
        [ZmqEvent.pollError EINTR, ZmqEvent.message "t" "m"] =
      CircusConsumer.iter_messages [ZmqEvent.message "t" "m"] ∧
    CircusConsumer.iter_messages
        [ZmqEvent.pollError 11, ZmqEvent.message "t" "m"] = ([], some 11) ∧
    CircusConsumer.stop ⟨false, false, false⟩ (some EINTR) =
      Except.ok ⟨false, false, false⟩ ∧
    CircusConsumer.stop ⟨false, false, false⟩ (some 11) = Except.error 11 :=
  ⟨c9_eintr_handling.1 [ZmqEvent.message "t" "m"],
   c9_eintr_handling.2.1 11 [ZmqEvent.message "t" "m"] (by decide),
   c9_eintr_handling.2.2.1 false false,
   c9_eintr_handling.2.2.2 11 false false (by decide)⟩

/-- C8: `expand_vars` preserves structure: same keys on dicts (values
expanded recursively), same length on lists (elements expanded
recursively), identity on anything that is not a string, dict or
list. -/
theorem c8_expand_vars_structure (env : StrEnv) :
    (∀ d, expand_vars env (PyVal.dict d) =
        PyVal.dict (d.map (fun p => (p.1, expand_vars env p.2))) ∧
      (d.map (fun p => (p.1, expand_vars env p.2))).map Prod.fst = d.map Prod.fst) ∧
    (∀ xs, expand_vars env (PyVal.list xs) = PyVal.list (xs.map (expand_vars env)) ∧
      (xs.map (expand_vars env)).length = xs.length) ∧
    (∀ v, (∀ s, v ≠ PyVal.str s) → (∀ d, v ≠ PyVal.dict d) →
      (∀ xs, v ≠ PyVal.list xs) → expand_vars env v = v) := by
  have hentries : ∀ d, expand_vars_entries env d =
      d.map (fun p => (p.1, expand_vars env p.2)) := by
    intro d
    induction d with
    | nil => rfl
    | cons p rest ih =>
      obtain ⟨k, v⟩ := p
      rw [expand_vars_entries, ih, List.map_cons]
  have hlist : ∀ xs, expand_vars_list env xs = xs.map (expand_vars env) := by
    intro xs
    induction xs with
    | nil => rfl
    | cons x rest ih => rw [expand_vars_list, ih, List.map_cons]
  refine ⟨?_, ?_, ?_⟩
  · intro d
    refine ⟨by rw [expand_vars, hentries], ?_⟩
    induction d with
    | nil => rfl
    | cons p rest ih => simp [ih]
  · intro xs
    exact ⟨by rw [expand_vars, hlist], by simp⟩
  · intro v hs hd hl
    cases v with
    | str s => exact absurd rfl (hs s)
    | dict d => exact absurd rfl (hd d)
    | list xs => exact absurd rfl (hl xs)
    | none =>
      rw [expand_vars] <;> exact fun x h => PyVal.noConfusion h
    | bool b =>
      rw [expand_vars] <;> exact fun x h => PyVal.noConfusion h
    | int i =>
      rw [expand_vars] <;> exact fun x h => PyVal.noConfusion h
    | float q =>
      rw [expand_vars] <;> exact fun x h => PyVal.noConfusion h

/-- C8 witness: the non-container case at a concrete value. -/
theorem c8_expand_vars_structure_witness :
    expand_vars [] (PyVal.int 7) = PyVal.int 7 :=
  (c8_expand_vars_structure []).2.2 (PyVal.int 7)
    (fun s h => by cases h) (fun d h => by cases h) (fun xs h => by cases h)

/-- Every natural below `2048` whose bits lie inside the create mask
`0x700` is a key of `_CREATE_MAP`. -/
theorem createMap_lookup_bounded : ∀ x : Nat, x < 1793 → (x &&& 1792) = x →
    (Share.mapLookup Share.CREATE_MAP (Int.ofNat x)).isSome = true := by
  intro x hlt h
  have hmod : x % 256 = 0 := by
    have h256 : (256 : Nat) = 2 ^ 8 := by norm_num
    rw [h256]
    apply Nat.eq_of_testBit_eq
    intro i
    rw [Nat.testBit_mod_two_pow, Nat.zero_testBit]
    by_cases hi : i < 8
    · have hbit := congrArg (fun y => Nat.testBit y i) h
      simp only [Nat.testBit_and] at hbit
      have h1792 : Nat.testBit 1792 i = false := by interval_cases i <;> decide
      rw [h1792, Bool.and_false] at hbit
      simp [← hbit]
    · simp [hi]
  have hx : x = 0 ∨ x = 256 ∨ x = 512 ∨ x = 768 ∨ x = 1024 ∨ x = 1280 ∨
      x = 1536 ∨ x = 1792 := by omega
  rcases hx with rfl | rfl | rfl | rfl | rfl | rfl | rfl | rfl <;> decide

theorem nat_and_mask_idem (m : Nat) : (m &&& 1792) &&& 1792 = m &&& 1792 := by
  apply Nat.eq_of_testBit_eq
  intro i
  simp [Nat.testBit_and, Bool.and_assoc]

theorem nat_ldiff_mask_and (m : Nat) :
    (Nat.ldiff 1792 m) &&& 1792 = Nat.ldiff 1792 m := by
  apply Nat.eq_of_testBit_eq
  intro i
  simp only [Nat.testBit_and, Nat.testBit_ldiff]
  cases h7 : Nat.testBit 1792 i <;> cases hm : Nat.testBit m i <;> simp

/-- `_CREATE_MAP[flags & _CREATE_MASK]` never raises `KeyError`. -/
theorem createMap_total (flags : Int) :
    (Share.mapLookup Share.CREATE_MAP (Int.land flags Share.CREATE_MASK)).isSome = true := by
  cases flags with
  | ofNat m =>
    have h : Int.land (Int.ofNat m) Share.CREATE_MASK = Int.ofNat (m &&& 1792) := rfl
    rw [h]
    refine createMap_lookup_bounded _ ?_ (nat_and_mask_idem m)
    have hle : m &&& 1792 ≤ 1792 := Nat.and_le_right
    omega
  | negSucc m =>
    have h : Int.land (Int.negSucc m) Share.CREATE_MASK =
        Int.ofNat (Nat.ldiff 1792 m) := rfl
    rw [h]
    refine createMap_lookup_bounded _ ?_ (nat_ldiff_mask_and m)
    have hle : Nat.ldiff 1792 m ≤ 1792 := by
      calc Nat.ldiff 1792 m = (Nat.ldiff 1792 m) &&& 1792 := (nat_ldiff_mask_and m).symm
        _ ≤ 1792 := Nat.and_le_right
    omega

theorem nat_ldiff_eq_zero_iff (s : Nat) : Nat.ldiff s 7 = 0 ↔ s &&& 7 = s := by
  constructor
  · intro h
    apply Nat.eq_of_testBit_eq
    intro i
    have hb := congrArg (fun x => Nat.testBit x i) h
    simp only [Nat.testBit_ldiff, Nat.zero_testBit] at hb
    simp only [Nat.testBit_and]
    cases h7 : Nat.testBit 7 i <;> cases hs : Nat.testBit s i <;> simp_all
  · intro h
    apply Nat.eq_of_testBit_eq
    intro i
    have hb := congrArg (fun x => Nat.testBit x i) h
    simp only [Nat.testBit_and] at hb
    simp only [Nat.testBit_ldiff, Nat.zero_testBit]
    cases h7 : Nat.testBit 7 i <;> cases hs : Nat.testBit s i <;> simp_all

/-- C10: for integer `flags` and `mode`, `os_open` raises `ValueError`
exactly when `share_flags` has a bit outside `FILE_SHARE_VALID_FLAGS`
(for a non-negative `share_flags` value `s` that test is `s &&& 7 ≠ s`),
and the `_CREATE_MAP` lookup on `flags & _CREATE_MASK` never fails. -/
theorem c10_os_open_value_error (flags mode share_flags : Int) :
    (Share.os_open flags mode share_flags = Except.error Share.OsOpenErr.valueError ↔
      Int.land share_flags (Int.lnot Share.FILE_SHARE_VALID_FLAGS) ≠ 0) ∧
    (Share.mapLookup Share.CREATE_MAP (Int.land flags Share.CREATE_MASK)).isSome = true ∧
    (∀ s : Nat, Int.land (Int.ofNat s) (Int.lnot Share.FILE_SHARE_VALID_FLAGS) ≠ 0 ↔
      ¬ ((s &&& 7 : Nat) = s)) := by
  refine ⟨⟨?_, ?_⟩, createMap_total flags, ?_⟩
  · intro h
    by_contra hs
    rw [Share.os_open, if_neg (fun hne => hne hs)] at h
    cases ha : Share.mapLookup Share.ACCESS_MAP (Int.land flags Share.ACCESS_MASK) with
    | none =>
      rw [ha] at h
      simp only [] at h
      exact absurd h (by simp)
    | some access0 =>
      rw [ha] at h
      cases hc : Share.mapLookup Share.CREATE_MAP (Int.land flags Share.CREATE_MASK) with
      | none =>
        have htot := createMap_total flags
        rw [hc] at htot
        simp at htot
      | some create_flags =>
        rw [hc] at h
        simp only [] at h
        exact absurd h (by simp)
  · intro hs
    rw [Share.os_open, if_pos hs]
  · intro s
    have hland : Int.land (Int.ofNat s) (Int.lnot Share.FILE_SHARE_VALID_FLAGS) =
        Int.ofNat (Nat.ldiff s 7) := rfl
    rw [hland]
    have h0 : (Int.ofNat (Nat.ldiff s 7) = 0) ↔ Nat.ldiff s 7 = 0 :=
      ⟨fun h => Int.ofNat.inj h, fun h => by rw [h]; rfl⟩
    rw [ne_eq, h0]
    exact not_congr (nat_ldiff_eq_zero_iff s)

end Circus


